import Mathlib

/-!
# Verification of the Contesa batch analysis pipeline

Shallow embedding of the core components of the call-center transcript
analysis system: the persistence layer (`database_manager.py`), the
analysis clients (`call_analysis.py` and `api/clients/openai_client.py`),
the result formatter and confidence scorer, the text chunker, the batch
orchestrator (`analyze_with_db.py`), and the connection pool
(`dao/db_connection_pool.py`).  Python dictionaries are embedded as
association lists of string keys and values, SQLite tables as lists of
such records, and the I/O driven control flow as explicit state passing
over environment-supplied outcome sequences.
-/

namespace Contesa

/-- A value stored in a result dictionary / database column: either a string,
a number (Python floats and ints are modelled as rationals), or a nested
token-usage object as produced by the API client. -/
inductive Value where
  | s (v : String)
  | num (q : ℚ)
  | tok (prompt completion total : ℕ)
  deriving DecidableEq, Repr

/-- Python truthiness for the values we model: the empty string, and the
number zero, are falsy; everything else is truthy. -/
def Value.truthy : Value → Bool
  | .s v => v ≠ ""
  | .num q => q ≠ 0
  | .tok _ _ _ => true

/-- A Python dict (and equally a database row): an association list from
string keys to values.  Earlier entries shadow later ones on lookup. -/
abbrev Record := List (String × Value)

/-- Dictionary lookup (`d.get(k)` / reading a column of a row; `none` models
both a missing key and SQL NULL). -/
def lookupRec (r : Record) (k : String) : Option Value :=
  (r.find? (fun kv => kv.1 = k)).map (·.2)

/-- `old.update(new)` / SQL `ON CONFLICT ... DO UPDATE`: keys of `new` win,
remaining keys of `old` are kept unchanged. -/
def recordUpdate (old new : Record) : Record :=
  new ++ old.filter (fun kv => (lookupRec new kv.1).isNone)

/-- The columns of the `analysis_results` table as created by
`DatabaseManager.initialize_db` (src/database_manager.py lines 76-112). -/
def analysisColumns : List String :=
  ["id", "call_id", "call_date", "analysis_status", "api_error",
   "primary_issue_category", "specific_issue", "issue_status",
   "issue_severity", "caller_type", "experience_level", "caller_intent",
   "system_portal", "device_information", "error_messages",
   "feature_involved", "issue_preconditions", "action_sequence",
   "failure_point", "expected_vs_actual", "issue_frequency",
   "attempted_solutions", "resolution_steps", "knowledge_gap_identified",
   "issue_description_quote", "impact_statement_quote", "issue_summary",
   "confidence_score", "analysis_timestamp", "processing_time_ms",
   "model", "note"]

/-- The data columns of `analysis_results` (everything except the
autoincrement `id`, which incoming records never provide). -/
def analysisRecordFields : List String := analysisColumns.filter (fun k => k ≠ "id")

/-- `INSERT INTO analysis_results ... ON CONFLICT(call_id) DO UPDATE SET
f = excluded.f` for the provided fields: the first row whose `call_id`
equals `v` is updated field-wise (absent fields keep their stored value),
otherwise a fresh row is appended (absent columns are NULL). -/
def upsertRow : List Record → Value → Record → List Record
  | [], _, fr => [fr]
  | row :: rest, v, fr =>
    if lookupRec row "call_id" = some v then recordUpdate row fr :: rest
    else row :: upsertRow rest v fr

/-- `DatabaseManager.save_analysis_result` (src/database_manager.py lines
401-449).  Returns the updated table and the method's boolean result.
A missing or falsy `call_id` is rejected with `false`; the record is
filtered to the table's known columns and upserted on `call_id`.
`storeFails` models the `except Exception` handler (lines 447-449): a
connection/integrity failure during the write is caught, logged and
surfaces as `return False`, leaving the table unchanged (the transaction
is never committed). -/
def saveAnalysisResult (storeFails : Record → Bool) (table : List Record)
    (r : Record) : List Record × Bool :=
  match lookupRec r "call_id" with
  | none => (table, false)
  | some v =>
    if v.truthy = false then (table, false)
    else if storeFails r then (table, false)
    else
      let fr := r.filter (fun kv => kv.1 ∈ analysisColumns)
      (upsertRow table v fr, true)

/-- The degenerate failure model used when the store is healthy. -/
def noStoreFailure : Record → Bool := fun _ => false

/-- Number of rows of a table whose `call_id` column holds `v`. -/
def countKey (table : List Record) (v : Value) : ℕ :=
  (table.filter (fun row => lookupRec row "call_id" = some v)).length

/-- A valid analysis record for key `c`: it provides exactly the data
columns of `analysis_results` (as the formatter's `asdict` output does),
and its `call_id` is the non-empty string `c`. -/
def validAnalysisRecord (r : Record) (c : String) : Prop :=
  r.map Prod.fst = analysisRecordFields ∧
  lookupRec r "call_id" = some (.s c) ∧ c ≠ ""

instance (r : Record) (c : String) : Decidable (validAnalysisRecord r c) := by
  unfold validAnalysisRecord; infer_instance

/-! ### Lookup/update/upsert lemmas -/

theorem lookupRec_append_some (a b : Record) (k : String) (w : Value)
    (h : lookupRec a k = some w) : lookupRec (a ++ b) k = some w := by
  induction a with
  | nil => simp [lookupRec] at h
  | cons kv rest ih =>
    by_cases hk : kv.1 = k
    · simpa [lookupRec, List.find?, hk] using h
    · simp only [lookupRec, List.find?, hk] at h ⊢
      simp only [decide_eq_true_eq, hk, decide_False] at h ⊢
      exact ih h

theorem lookupRec_append_none (a b : Record) (k : String)
    (h : lookupRec a k = none) : lookupRec (a ++ b) k = lookupRec b k := by
  induction a with
  | nil => rfl
  | cons kv rest ih =>
    by_cases hk : kv.1 = k
    · simp [lookupRec, List.find?, hk] at h
    · simp only [lookupRec, List.find?, hk] at h ⊢
      simp only [decide_eq_true_eq, hk, decide_False] at h ⊢
      exact ih h

theorem lookupRec_isSome_of_mem_keys (r : Record) (k : String)
    (h : k ∈ r.map Prod.fst) : (lookupRec r k).isSome := by
  rcases List.mem_map.mp h with ⟨kv, hkv, hk⟩
  have hfind : (r.find? (fun kv => kv.1 = k)).isSome :=
    List.find?_isSome.mpr ⟨kv, hkv, by simp [hk]⟩
  simpa [lookupRec] using hfind

theorem recordUpdate_lookup_present (old new : Record) (k : String)
    (h : (lookupRec new k).isSome) :
    lookupRec (recordUpdate old new) k = lookupRec new k := by
  rcases Option.isSome_iff_exists.mp h with ⟨w, hw⟩
  rw [recordUpdate, lookupRec_append_some _ _ k w hw, hw]

theorem lookupRec_filter_irrelevant (old : Record) (q : String × Value → Bool)
    (k : String) (hq : ∀ kv ∈ old, kv.1 = k → q kv = true) :
    lookupRec (old.filter q) k = lookupRec old k := by
  induction old with
  | nil => rfl
  | cons kv rest ih =>
    have hqrest : ∀ kv ∈ rest, kv.1 = k → q kv = true :=
      fun e he hk => hq e (List.mem_cons_of_mem _ he) hk
    by_cases hk : kv.1 = k
    · have := hq kv (List.mem_cons_self _ _) hk
      simp [List.filter_cons, this, lookupRec, List.find?, hk]
    · by_cases hqv : q kv = true
      · simpa [List.filter_cons, hqv, lookupRec, List.find?, hk] using ih hqrest
      · simp only [Bool.not_eq_true] at hqv
        simpa [List.filter_cons, hqv, lookupRec, List.find?, hk] using ih hqrest

theorem recordUpdate_lookup_absent (old new : Record) (k : String)
    (h : lookupRec new k = none) :
    lookupRec (recordUpdate old new) k = lookupRec old k := by
  rw [recordUpdate, lookupRec_append_none _ _ k h]
  exact lookupRec_filter_irrelevant old _ k (fun kv _ hkv => by simp [hkv, h])

theorem countKey_cons (row : Record) (rest : List Record) (v : Value) :
    countKey (row :: rest) v =
      (if lookupRec row "call_id" = some v then 1 else 0) + countKey rest v := by
  by_cases h : lookupRec row "call_id" = some v <;>
    simp [countKey, List.filter_cons, h, Nat.add_comm]

theorem upsertRow_count (t : List Record) (v : Value) (fr : Record)
    (hfr : lookupRec fr "call_id" = some v) (hwf : countKey t v ≤ 1) :
    countKey (upsertRow t v fr) v = 1 := by
  induction t with
  | nil => simp [upsertRow, countKey, hfr]
  | cons row rest ih =>
    rw [countKey_cons] at hwf
    by_cases h : lookupRec row "call_id" = some v
    · have hrest : countKey rest v = 0 := by simp [h] at hwf; omega
      have hupd : lookupRec (recordUpdate row fr) "call_id" = some v := by
        rw [recordUpdate_lookup_present row fr _ (by simp [hfr])]; exact hfr
      rw [upsertRow, if_pos h, countKey_cons, if_pos hupd, hrest]
    · rw [upsertRow, if_neg h, countKey_cons, if_neg h]
      simp [h] at hwf
      simpa using ih hwf

theorem upsertRow_lookup_some (t : List Record) (v : Value) (fr : Record)
    (k : String) (w : Value) (hwf : countKey t v ≤ 1)
    (hfr : lookupRec fr "call_id" = some v) (hk : lookupRec fr k = some w) :
    ∀ row ∈ upsertRow t v fr, lookupRec row "call_id" = some v →
      lookupRec row k = some w := by
  induction t with
  | nil =>
    intro row hrow _
    simp [upsertRow] at hrow
    subst hrow; exact hk
  | cons r0 rest ih =>
    rw [countKey_cons] at hwf
    intro row hrow hrowv
    by_cases h : lookupRec r0 "call_id" = some v
    · rw [upsertRow, if_pos h] at hrow
      have hrest : countKey rest v = 0 := by simp [h] at hwf; omega
      rcases List.mem_cons.mp hrow with hEq | hmem
      · subst hEq
        rw [recordUpdate_lookup_present r0 fr k (by simp [hk])]; exact hk
      · exfalso
        have : 0 < countKey rest v := by
          unfold countKey
          have : row ∈ rest.filter (fun r => lookupRec r "call_id" = some v) :=
            List.mem_filter.mpr ⟨hmem, by simp [hrowv]⟩
          exact List.length_pos.mpr (fun hemp => by simp [hemp] at this)
        omega
    · rw [upsertRow, if_neg h] at hrow
      rcases List.mem_cons.mp hrow with hEq | hmem
      · subst hEq; exact absurd hrowv h
      · simp [h] at hwf
        exact ih hwf row hmem hrowv

theorem upsertRow_lookup_none_existing (t : List Record) (v : Value)
    (fr R : Record) (k : String) (hwf : countKey t v ≤ 1) (hR : R ∈ t)
    (hRv : lookupRec R "call_id" = some v)
    (_hfr : lookupRec fr "call_id" = some v) (hk : lookupRec fr k = none) :
    ∀ row ∈ upsertRow t v fr, lookupRec row "call_id" = some v →
      lookupRec row k = lookupRec R k := by
  induction t with
  | nil => simp at hR
  | cons r0 rest ih =>
    rw [countKey_cons] at hwf
    intro row hrow hrowv
    by_cases h : lookupRec r0 "call_id" = some v
    · rw [upsertRow, if_pos h] at hrow
      have hrest : countKey rest v = 0 := by simp [h] at hwf; omega
      have hR0 : R = r0 := by
        rcases List.mem_cons.mp hR with hEq | hmem
        · exact hEq
        · exfalso
          have : 0 < countKey rest v := by
            unfold countKey
            have : R ∈ rest.filter (fun r => lookupRec r "call_id" = some v) :=
              List.mem_filter.mpr ⟨hmem, by simp [hRv]⟩
            exact List.length_pos.mpr (fun hemp => by simp [hemp] at this)
          omega
      rcases List.mem_cons.mp hrow with hEq | hmem
      · subst hEq; rw [hR0]; exact recordUpdate_lookup_absent r0 fr k hk
      · exfalso
        have : 0 < countKey rest v := by
          unfold countKey
          have : row ∈ rest.filter (fun r => lookupRec r "call_id" = some v) :=
            List.mem_filter.mpr ⟨hmem, by simp [hrowv]⟩
          exact List.length_pos.mpr (fun hemp => by simp [hemp] at this)
        omega
    · rw [upsertRow, if_neg h] at hrow
      have hRrest : R ∈ rest := by
        rcases List.mem_cons.mp hR with hEq | hmem
        · subst hEq; exact absurd hRv h
        · exact hmem
      rcases List.mem_cons.mp hrow with hEq | hmem
      · subst hEq; exact absurd hrowv h
      · simp [h] at hwf
        exact ih hwf hRrest row hmem hrowv

theorem filter_valid_record (r : Record) (hkeys : r.map Prod.fst = analysisRecordFields) :
    r.filter (fun kv => kv.1 ∈ analysisColumns) = r := by
  apply List.filter_eq_self.mpr
  intro kv hkv
  have h1 : kv.1 ∈ analysisRecordFields := hkeys ▸ List.mem_map_of_mem Prod.fst hkv
  have h2 : kv.1 ∈ analysisColumns := (List.mem_filter.mp h1).1
  exact decide_eq_true h2

theorem saveAnalysisResult_valid (t : List Record) (r : Record) (c : String)
    (h : validAnalysisRecord r c) :
    saveAnalysisResult noStoreFailure t r = (upsertRow t (.s c) r, true) := by
  obtain ⟨hkeys, hcid, hc⟩ := h
  rw [saveAnalysisResult, hcid]
  simp only [Value.truthy, noStoreFailure]
  rw [filter_valid_record r hkeys]
  simp [hc]

/-- C1: saving two valid analysis records that share the same `call_id`
one after the other leaves exactly one `analysis_results` row for that
`call_id`, and that row reflects the latest values, those of the second
record — last-writer-wins at the row level, never a duplicate row.
(`DatabaseManager.save_analysis_result`, src/database_manager.py 401-449.) -/
theorem C1_save_twice_same_key_last_writer_wins
    (t : List Record) (r1 r2 : Record) (c : String)
    (h1 : validAnalysisRecord r1 c) (h2 : validAnalysisRecord r2 c)
    (hwf : countKey t (.s c) ≤ 1) :
    countKey (saveAnalysisResult noStoreFailure
        (saveAnalysisResult noStoreFailure t r1).1 r2).1 (.s c) = 1 ∧
    ∀ row ∈ (saveAnalysisResult noStoreFailure
        (saveAnalysisResult noStoreFailure t r1).1 r2).1,
      lookupRec row "call_id" = some (.s c) →
      ∀ k ∈ analysisRecordFields, lookupRec row k = lookupRec r2 k := by
  rw [saveAnalysisResult_valid t r1 c h1]
  simp only
  rw [saveAnalysisResult_valid _ r2 c h2]
  simp only
  have hcid1 : lookupRec r1 "call_id" = some (.s c) := h1.2.1
  have hcid2 : lookupRec r2 "call_id" = some (.s c) := h2.2.1
  have hcount1 : countKey (upsertRow t (.s c) r1) (.s c) = 1 :=
    upsertRow_count t _ r1 hcid1 hwf
  refine ⟨upsertRow_count _ _ r2 hcid2 (le_of_eq hcount1), ?_⟩
  intro row hrow hrowv k hk
  have hsome : (lookupRec r2 k).isSome :=
    lookupRec_isSome_of_mem_keys r2 k (h2.1 ▸ hk)
  rcases Option.isSome_iff_exists.mp hsome with ⟨w, hw⟩
  rw [hw]
  exact upsertRow_lookup_some _ _ r2 k w (le_of_eq hcount1) hcid2 hw row hrow hrowv

/-- A concrete full analysis record with key "call-1" and payload `x`. -/
def sampleAnalysisRecord (x : String) : Record :=
  analysisRecordFields.map
    (fun k => (k, if k = "call_id" then Value.s "call-1" else Value.s x))

/-- Witness for C1 at concrete records sharing the key "call-1". -/
theorem C1_save_twice_same_key_last_writer_wins_witness :
    countKey (saveAnalysisResult noStoreFailure
        (saveAnalysisResult noStoreFailure [] (sampleAnalysisRecord "old")).1
        (sampleAnalysisRecord "new")).1 (.s "call-1") = 1 ∧
    ∀ row ∈ (saveAnalysisResult noStoreFailure
        (saveAnalysisResult noStoreFailure [] (sampleAnalysisRecord "old")).1
        (sampleAnalysisRecord "new")).1,
      lookupRec row "call_id" = some (.s "call-1") →
      ∀ k ∈ analysisRecordFields,
        lookupRec row k = lookupRec (sampleAnalysisRecord "new") k :=
  C1_save_twice_same_key_last_writer_wins [] (sampleAnalysisRecord "old")
    (sampleAnalysisRecord "new") "call-1" (by decide) (by decide) (by decide)

/-! ### The parsed analysis object and the confidence scorer
(`ResultFormatter._calculate_confidence_score`, src/call_analysis.py 698-737,
and the structured response contract of §6 of the spec). -/

/-- `issue_classification` sub-object; missing sub-keys read as `""`. -/
structure IssueClassification where
  primary_category : String := ""
  specific_issue : String := ""
  process_stage : String := ""
  issue_status : String := ""
  severity : String := ""
  deriving DecidableEq, Repr

/-- `caller_information` sub-object. -/
structure CallerInformation where
  caller_type : String := ""
  experience_level : String := ""
  intent : String := ""
  deriving DecidableEq, Repr

/-- `technical_context` sub-object. -/
structure TechnicalContext where
  system_portal : String := ""
  device_information : String := ""
  error_messages : String := ""
  feature_involved : String := ""
  deriving DecidableEq, Repr

/-- `issue_recreation` sub-object. -/
structure IssueRecreation where
  preconditions : String := ""
  action_sequence : String := ""
  workflow_stage : String := ""
  failure_point : String := ""
  expected_vs_actual : String := ""
  frequency : String := ""
  deriving DecidableEq, Repr

/-- `resolution_path` sub-object. -/
structure ResolutionPath where
  attempted_solutions : String := ""
  resolution_steps : String := ""
  knowledge_gap_identified : String := ""
  deriving DecidableEq, Repr

/-- `key_quotes` sub-object. -/
structure KeyQuotes where
  issue_description : String := ""
  impact_statement : String := ""
  deriving DecidableEq, Repr

/-- The parsed analysis dictionary handed to the result formatter: the
top-level keys of the structured response, plus the bookkeeping keys the
pipeline itself may add (`api_error`, `error`, `note`, `processing_time`).
`Option` distinguishes a missing key (Python `"k" in result` is false)
from a present one. -/
structure ParsedResult where
  issue_classification : Option IssueClassification := none
  caller_information : Option CallerInformation := none
  technical_context : Option TechnicalContext := none
  issue_recreation : Option IssueRecreation := none
  resolution_path : Option ResolutionPath := none
  key_quotes : Option KeyQuotes := none
  issue_summary : Option String := none
  api_error : Option String := none
  error : Option String := none
  note : Option String := none
  processing_time : Option ℚ := none
  deriving DecidableEq, Repr

/-- `result.get("issue_classification", {})`. -/
def ParsedResult.issueClassD (p : ParsedResult) : IssueClassification :=
  p.issue_classification.getD {}

/-- `result.get("technical_context", {})`. -/
def ParsedResult.techD (p : ParsedResult) : TechnicalContext :=
  p.technical_context.getD {}

/-- `result.get("issue_recreation", {})`. -/
def ParsedResult.recD (p : ParsedResult) : IssueRecreation :=
  p.issue_recreation.getD {}

/-- `result.get("key_quotes", {})`. -/
def ParsedResult.quotesD (p : ParsedResult) : KeyQuotes :=
  p.key_quotes.getD {}

/-- `result.get("caller_information", {})`. -/
def ParsedResult.callerD (p : ParsedResult) : CallerInformation :=
  p.caller_information.getD {}

/-- `result.get("resolution_path", {})`. -/
def ParsedResult.resD (p : ParsedResult) : ResolutionPath :=
  p.resolution_path.getD {}

/-- `result.get("issue_summary", "")`. -/
def ParsedResult.summaryD (p : ParsedResult) : String :=
  p.issue_summary.getD ""

/-- Python `s.lower()` (ASCII case folding, which is all the scorer's
comparisons need). -/
def pyLower (s : String) : String := ⟨s.data.map Char.toLower⟩

/-- Helper for `text.split()`: collect maximal non-whitespace runs. -/
def wordsAux (acc : List Char) : List Char → List (List Char)
  | [] => if acc.isEmpty then [] else [acc.reverse]
  | c :: rest =>
    if c.isWhitespace then
      if acc.isEmpty then wordsAux [] rest else acc.reverse :: wordsAux [] rest
    else wordsAux (c :: acc) rest

/-- `len(s.split())`: number of whitespace-separated words. -/
def wordCount (s : String) : ℕ := (wordsAux [] s.data).length

/-- `needle` is a leading segment of the second list. -/
def startsWithList : List Char → List Char → Bool
  | [], _ => true
  | _ :: _, [] => false
  | a :: as, b :: bs => a = b && startsWithList as bs

/-- `needle` occurs somewhere in the second list. -/
def containsList (needle : List Char) : List Char → Bool
  | [] => needle.isEmpty
  | c :: rest => startsWithList needle (c :: rest) || containsList needle rest

/-- Python `t in s`. -/
def hasSubstr (s t : String) : Bool := containsList t.data s.data

/-- The ten key indicator fields enumerated by
`_calculate_confidence_score` (src/call_analysis.py 702-713). -/
def keyIndicators (p : ParsedResult) : List String :=
  [p.issueClassD.primary_category,
   p.issueClassD.specific_issue,
   p.issueClassD.severity,
   p.techD.system_portal,
   p.techD.feature_involved,
   p.recD.action_sequence,
   p.recD.failure_point,
   p.recD.expected_vs_actual,
   p.quotesD.issue_description,
   p.summaryD]

/-- An indicator counts as filled when it is non-empty and not (case
insensitively) the literal "not mentioned" (line 716). -/
def indicatorFilled (f : String) : Bool :=
  f ≠ "" && pyLower f ≠ "not mentioned"

/-- `ResultFormatter._calculate_confidence_score` (src/call_analysis.py
698-737): base percentage of filled indicators, then three independent
+5 boosts (summary longer than 50 words; "step" occurring in the
lower-cased action sequence; both quote fields non-empty), capped at 100.
The arithmetic is modelled over ℚ, where the Python expression
`(filled / len) * 100` is exact. -/
def calculateConfidenceScore (p : ParsedResult) : ℚ :=
  let inds := keyIndicators p
  let filled_fields := (inds.filter indicatorFilled).length
  let confidence : ℚ := ((filled_fields : ℚ) / (inds.length : ℚ)) * 100
  let c1 := if 50 < wordCount p.summaryD then confidence + 5 else confidence
  let c2 := if hasSubstr (pyLower p.recD.action_sequence) "step" then c1 + 5 else c1
  let c3 := if p.quotesD.issue_description ≠ "" ∧ p.quotesD.impact_statement ≠ ""
            then c2 + 5 else c2
  min 100 c3

/-- The number of +5 boosts that apply to `p`. -/
def bonusCount (p : ParsedResult) : ℕ :=
  (if 50 < wordCount p.summaryD then 1 else 0) +
  (if hasSubstr (pyLower p.recD.action_sequence) "step" then 1 else 0) +
  (if p.quotesD.issue_description ≠ "" ∧ p.quotesD.impact_statement ≠ ""
   then 1 else 0)

/-- The claim's closed-form reading of the scorer: `(filled / 10) * 100`
plus 5 per independently satisfied bonus, capped at 100. -/
def confidenceSpec (p : ParsedResult) : ℚ :=
  min 100 ((((keyIndicators p).filter indicatorFilled).length : ℚ) * 10
    + 5 * (bonusCount p : ℚ))

/-- The parsed result whose ten indicators (and the impact quote) are all
the literal string "not mentioned". -/
def allNotMentioned : ParsedResult :=
  { issue_classification := some
      { primary_category := "not mentioned", specific_issue := "not mentioned",
        severity := "not mentioned" },
    technical_context := some
      { system_portal := "not mentioned", feature_involved := "not mentioned" },
    issue_recreation := some
      { action_sequence := "not mentioned", failure_point := "not mentioned",
        expected_vs_actual := "not mentioned" },
    key_quotes := some
      { issue_description := "not mentioned", impact_statement := "not mentioned" },
    issue_summary := some "not mentioned" }

/-- C3 counterexample: with every one of the ten key indicator fields
equal to "not mentioned" (so none is filled), the quote-pair bonus still
fires because both quote fields are non-empty strings, and the score is
5, not 0 as the claim asserts for this input. -/
theorem C3_counterexample_all_not_mentioned_scores_five :
    (∀ f ∈ keyIndicators allNotMentioned, f = "" ∨ pyLower f = "not mentioned") ∧
    calculateConfidenceScore allNotMentioned = 5 ∧
    calculateConfidenceScore allNotMentioned ≠ 0 := by
  refine ⟨by decide, ?_, ?_⟩ <;>
    simp +decide [calculateConfidenceScore, keyIndicators, allNotMentioned,
      indicatorFilled, ParsedResult.issueClassD, ParsedResult.techD,
      ParsedResult.recD, ParsedResult.quotesD, ParsedResult.summaryD]

/-- C3 (amended): the confidence score equals `(filled / 10) * 100` plus an
independent additive `+5` per satisfied bonus, capped at 100; it never
exceeds 100 for any input; and it is 0 when all ten key indicator fields
are empty or the literal "not mentioned" **and** the two quote fields are
not both non-empty (when both quote fields are non-empty — e.g. both equal
to "not mentioned" — the quote bonus still fires, which is what refutes
the original claim). -/
theorem C3_confidence_score_formula_cap_and_zero (p : ParsedResult) :
    calculateConfidenceScore p = confidenceSpec p ∧
    calculateConfidenceScore p ≤ 100 ∧
    ((∀ f ∈ keyIndicators p, f = "" ∨ f = "not mentioned") →
      ¬(p.quotesD.issue_description ≠ "" ∧ p.quotesD.impact_statement ≠ "") →
      calculateConfidenceScore p = 0) := by
  have hlen : ((keyIndicators p).length : ℚ) = 10 := by simp [keyIndicators]
  refine ⟨?_, ?_, ?_⟩
  · simp only [calculateConfidenceScore, confidenceSpec, bonusCount, hlen]
    split_ifs <;> (congr 1; push_cast; ring)
  · simp only [calculateConfidenceScore]
    exact min_le_left _ _
  · intro hall hq
    have hsum : p.summaryD ∈ keyIndicators p := by simp [keyIndicators]
    have hact : p.recD.action_sequence ∈ keyIndicators p := by simp [keyIndicators]
    have hfill : (keyIndicators p).filter indicatorFilled = [] := by
      rw [List.filter_eq_nil_iff]
      intro f hf
      rcases hall f hf with rfl | rfl <;> decide
    have hb1 : ¬(50 < wordCount p.summaryD) := by
      rcases hall _ hsum with h | h <;> rw [h] <;> decide
    have hb2 : ¬(hasSubstr (pyLower p.recD.action_sequence) "step" = true) := by
      rcases hall _ hact with h | h <;> rw [h] <;> decide
    simp only [calculateConfidenceScore, hfill, hlen, if_neg hb1, if_neg hb2,
      if_neg hq, List.length_nil]
    norm_num

/-- Witness for the amended C3 at the fully-empty parsed result. -/
theorem C3_confidence_score_formula_cap_and_zero_witness :
    calculateConfidenceScore {} = confidenceSpec {} ∧
    calculateConfidenceScore {} ≤ 100 ∧
    calculateConfidenceScore {} = 0 :=
  have h := C3_confidence_score_formula_cap_and_zero {}
  ⟨h.1, h.2.1, h.2.2 (by decide) (by decide)⟩

/-! ### Text chunking (`TextProcessor.chunk_text`, src/call_analysis.py
131-160) and the orchestrator's truncation note
(`DbCallAnalysisService.analyze_batch`, src/analyze_with_db.py 202-205).
Transcripts are modelled as lists of characters. -/

/-- A sentence-ending character, `[.!?]` in the splitting pattern. -/
def isSentenceEnd (c : Char) : Bool := c = '.' || c = '!' || c = '?'

/-- Whether the list starts with a whitespace character. -/
def headIsWs : List Char → Bool
  | [] => false
  | c :: _ => c.isWhitespace

/-- Worker for `re.split(r'(?<=[.!?])\s+', text)`: a split happens at each
maximal whitespace run directly preceded by a sentence-ending character;
the punctuation stays with the preceding segment and the whitespace run is
consumed.  `skipping` records that we are inside such a run. -/
def splitSentencesGo : List Char → Bool → List Char → List (List Char)
  | acc, _, [] => [acc.reverse]
  | acc, skipping, c :: rest =>
    if skipping && c.isWhitespace then splitSentencesGo acc skipping rest
    else if isSentenceEnd c && headIsWs rest then
      (acc.reverse ++ [c]) :: splitSentencesGo [] true rest
    else splitSentencesGo (c :: acc) false rest

/-- The sentence list produced by the splitting pattern of `chunk_text`. -/
def splitSentences (text : List Char) : List (List Char) :=
  splitSentencesGo [] false text

/-- `' '.join(current_chunk)`. -/
def joinSp : List (List Char) → List Char
  | [] => []
  | [s] => s
  | s :: rest => s ++ ' ' :: joinSp rest

/-- The greedy sentence-accumulation loop of `chunk_text` (lines 144-158):
a sentence is added to the current chunk while the running length (with a
one-character separator allowance) stays within `maxLength`; otherwise the
current chunk is flushed and a new one starts with this sentence. -/
def chunkLoop (maxLength : ℕ) :
    List (List Char) → List (List Char) → ℕ → List (List Char)
  | [], current, _ => if current.isEmpty then [] else [joinSp current.reverse]
  | s :: rest, current, curLen =>
    if curLen + s.length + 1 ≤ maxLength then
      chunkLoop maxLength rest (s :: current) (curLen + s.length + 1)
    else if current.isEmpty then
      chunkLoop maxLength rest [s] s.length
    else
      joinSp current.reverse :: chunkLoop maxLength rest [s] s.length

/-- `TextProcessor.chunk_text(text, max_length)` (default `max_length` is
8000; the orchestrator calls it with the default). -/
def chunkText (text : List Char) (maxLength : ℕ) : List (List Char) :=
  if text.isEmpty then []
  else if text.length ≤ maxLength then [text]
  else chunkLoop maxLength (splitSentences text) [] 0

/-- The note text attached by the orchestrator (src/analyze_with_db.py 205). -/
def truncationNote (chunks : List (List Char)) (text : List Char) : String :=
  "Analysis based on partial transcription (" ++
    toString (chunks.headD []).length ++ "/" ++ toString text.length ++ " chars)"

/-- `DbCallAnalysisService.analyze_batch` lines 202-205: when `chunk_text`
returns more than one chunk, a `note` entry is set on the result. -/
def attachTruncationNote (maxLength : ℕ) (transcription : List Char)
    (result : Record) : Record :=
  let chunks := chunkText transcription maxLength
  if 1 < chunks.length then
    recordUpdate result
      [("note", .s (truncationNote chunks transcription))]
  else result

theorem joinSp_append_singleton (l : List (List Char)) (s : List Char) :
    joinSp (l ++ [s]) = if l.isEmpty then s else joinSp l ++ ' ' :: s := by
  induction l with
  | nil => rfl
  | cons a t ih =>
    cases t with
    | nil => rfl
    | cons b t2 =>
      have h1 : joinSp ((a :: b :: t2) ++ [s]) =
          a ++ ' ' :: joinSp ((b :: t2) ++ [s]) := rfl
      rw [h1, ih]
      simp [joinSp, List.append_assoc]

theorem chunkLoop_length_le (maxLength : ℕ) (sentences : List (List Char)) :
    ∀ (current : List (List Char)) (curLen : ℕ),
    (∀ s ∈ sentences, s.length ≤ maxLength) →
    (joinSp current.reverse).length ≤ curLen → curLen ≤ maxLength →
    ∀ ch ∈ chunkLoop maxLength sentences current curLen,
      ch.length ≤ maxLength := by
  induction sentences with
  | nil =>
    intro current curLen _ hjoin hcur ch hch
    rw [chunkLoop] at hch
    by_cases hemp : current.isEmpty
    · simp [hemp] at hch
    · simp only [Bool.not_eq_true] at hemp
      simp [hemp] at hch
      subst hch
      exact le_trans hjoin hcur
  | cons s rest ih =>
    intro current curLen hsent hjoin hcur ch hch
    have hs : s.length ≤ maxLength := hsent s (by simp)
    have hrest : ∀ t ∈ rest, t.length ≤ maxLength :=
      fun t ht => hsent t (by simp [ht])
    rw [chunkLoop] at hch
    by_cases h1 : curLen + s.length + 1 ≤ maxLength
    · rw [if_pos h1] at hch
      refine ih (s :: current) (curLen + s.length + 1) hrest ?_ h1 ch hch
      rw [List.reverse_cons, joinSp_append_singleton]
      by_cases hemp : current.reverse.isEmpty
      · simp only [hemp, if_true]; omega
      · simp only [hemp, if_false, Bool.false_eq_true]
        rw [List.length_append, List.length_cons]
        omega
    · rw [if_neg h1] at hch
      by_cases hemp : current.isEmpty
      · rw [if_pos hemp] at hch
        exact ih [s] s.length hrest (by simp [joinSp]) hs ch hch
      · simp only [Bool.not_eq_true] at hemp
        rw [if_neg (by simp [hemp])] at hch
        rcases List.mem_cons.mp hch with hEq | hmem
        · subst hEq; exact le_trans hjoin hcur
        · exact ih [s] s.length hrest (by simp [joinSp]) hs ch hmem

/-- Helper: the truncation note string is never empty. -/
theorem truncationNote_ne_empty (chunks : List (List Char)) (text : List Char) :
    truncationNote chunks text ≠ "" := by
  rw [truncationNote]
  intro hEq
  have hl := congrArg String.length hEq
  simp only [String.length_append] at hl
  have h41 : "Analysis based on partial transcription (".length = 41 := rfl
  rw [h41] at hl
  simp at hl

/-- C4 (amended): for a transcript longer than the configured maximum in
which every sentence produced by the sentence-boundary split fits in the
maximum, every chunk — in particular the first — has length at most the
maximum, and whenever more than one chunk results the orchestrator attaches
a non-empty truncation note to the item's result.  (Without the
per-sentence bound the claim fails: a single oversized sentence becomes a
chunk longer than the maximum, see the counterexample.) -/
theorem C4_first_chunk_bounded_and_note_attached (text : List Char)
    (maxLength : ℕ) (r : Record) (hlong : maxLength < text.length)
    (hsent : ∀ s ∈ splitSentences text, s.length ≤ maxLength) :
    ((chunkText text maxLength).headD []).length ≤ maxLength ∧
    (∀ ch ∈ chunkText text maxLength, ch.length ≤ maxLength) ∧
    (1 < (chunkText text maxLength).length →
      ∃ n, lookupRec (attachTruncationNote maxLength text r) "note" =
          some (.s n) ∧ n ≠ "") := by
  have hne : text.isEmpty = false := by
    cases text with
    | nil => simp at hlong
    | cons c t => rfl
  have hgt : ¬ (text.length ≤ maxLength) := not_le.mpr hlong
  have hall : ∀ ch ∈ chunkText text maxLength, ch.length ≤ maxLength := by
    intro ch hch
    rw [chunkText, hne] at hch
    simp only [Bool.false_eq_true, if_false, if_neg hgt] at hch
    exact chunkLoop_length_le maxLength (splitSentences text) [] 0 hsent
      (by simp [joinSp]) (Nat.zero_le _) ch hch
  refine ⟨?_, hall, ?_⟩
  · cases hchunks : chunkText text maxLength with
    | nil => simp
    | cons ch rest =>
      simpa using hall ch (by rw [hchunks]; exact List.mem_cons_self ch rest)
  · intro hmany
    refine ⟨truncationNote (chunkText text maxLength) text, ?_, ?_⟩
    · rw [attachTruncationNote]
      simp only [if_pos hmany]
      rw [recordUpdate_lookup_present]
      · simp [lookupRec, List.find?]
      · simp [lookupRec, List.find?]
    · exact truncationNote_ne_empty _ _

/-- Witness for the amended C4: a 14-character transcript with three short
sentences and maximum length 10 produces two chunks, each within bound,
and the truncation note is attached. -/
theorem C4_first_chunk_bounded_and_note_attached_witness :
    ((chunkText "aaa. bbb. ccc.".data 10).headD []).length ≤ 10 ∧
    (∀ ch ∈ chunkText "aaa. bbb. ccc.".data 10, ch.length ≤ 10) ∧
    ∃ n, lookupRec (attachTruncationNote 10 "aaa. bbb. ccc.".data []) "note" =
        some (.s n) ∧ n ≠ "" :=
  have h := C4_first_chunk_bounded_and_note_attached "aaa. bbb. ccc.".data 10 []
    (by decide) (by decide)
  ⟨h.1, h.2.1, h.2.2 (by decide)⟩

/-- C4 counterexample: a 15-character transcript whose first sentence alone
is 13 characters, chunked with maximum length 10.  The transcript is longer
than the maximum and contains sentence-ending punctuation, yet the first
chunk (the whole oversized sentence) exceeds the maximum, refuting the
claim as stated. -/
theorem C4_counterexample_oversized_sentence :
    10 < "aaaaaaaaaaaa. b".data.length ∧
    "aaaaaaaaaaaa. b".data.any isSentenceEnd = true ∧
    10 < ((chunkText "aaaaaaaaaaaa. b".data 10).headD []).length := by
  decide

/-! ### The retrying analysis clients.
Two implementations of `OpenAIClient.analyze_transcript` exist:
`src/call_analysis.py` lines 477-578 (loop `for retry in
range(max_retries + 1)`) and `src/api/clients/openai_client.py` lines
121-189 (loop `for attempt in range(max_retries)`).  Each attempt's
interaction with the remote service is supplied by an environment function
from attempt index to outcome. -/

/-- Per-attempt outcome for the `call_analysis.py` client: a fully parsed
and validated response, an invalid-JSON response (`json.JSONDecodeError`
with the raw text), or any exception from the call / validation
(`except Exception` with type name, extracted code and message). -/
inductive ApiAttempt where
  | ok (r : ParsedResult)
  | jsonError (msg raw : String)
  | exn (etype code msg : String)
  deriving DecidableEq, Repr

/-- Whether the attempt did not produce a valid parsed result. -/
def ApiAttempt.isFailure : ApiAttempt → Bool
  | .ok _ => false
  | _ => true

/-- The dictionary returned by the `call_analysis.py` client. -/
structure CAResult where
  call_id : String
  api_error : Option String := none
  issue_summary : Option String := none
  raw_response : Option String := none
  issue_classification : Option IssueClassification := none
  parsed : Option ParsedResult := none
  deriving DecidableEq, Repr

/-- `result_text[:500] + "..." if len(result_text) > 500 else result_text`. -/
def truncateRaw (raw : String) : String :=
  if 500 < raw.length then String.mk (raw.data.take 500) ++ "..." else raw

/-- The retry loop of `call_analysis.OpenAIClient.analyze_transcript`:
`i` is the current attempt index, `remaining` the number of retries still
allowed (`max_retries - i`).  Returns the result dictionary and the number
of attempts performed.  Every branch returns a value — the method never
raises past the retry boundary. -/
def analyzeCAGo (callId : String) (outcomes : ℕ → ApiAttempt) :
    ℕ → ℕ → CAResult × ℕ
  | i, 0 =>
    (match outcomes i with
     | .ok r => { call_id := callId, parsed := some r }
     | .jsonError msg raw =>
       { call_id := callId,
         api_error := some ("JSON parsing error: " ++ msg),
         issue_summary := some
           "Analysis failed due to API formatting error. The transcript may require manual review.",
         raw_response := some (truncateRaw raw) }
     | .exn etype code msg =>
       { call_id := callId,
         api_error := some (etype ++ " (code: " ++ code ++ "): " ++ msg),
         issue_classification := some
           { primary_category := "API Error",
             specific_issue := "API failure: " ++ etype,
             issue_status := "Unresolved", severity := "High" },
         issue_summary := some
           ("The analysis failed due to an API error: " ++ etype ++
            ". The transcript may require manual review.") }, 1)
  | i, rem + 1 =>
    match outcomes i with
    | .ok r => ({ call_id := callId, parsed := some r }, 1)
    | .jsonError _ _ =>
      let r := analyzeCAGo callId outcomes (i + 1) rem
      (r.1, r.2 + 1)
    | .exn _ _ _ =>
      let r := analyzeCAGo callId outcomes (i + 1) rem
      (r.1, r.2 + 1)

/-- `call_analysis.OpenAIClient.analyze_transcript` with `max_retries`
from the configuration. -/
def analyzeTranscriptCA (maxRetries : ℕ) (outcomes : ℕ → ApiAttempt)
    (callId : String) : CAResult × ℕ :=
  analyzeCAGo callId outcomes 0 maxRetries

/-- Per-attempt outcome for the `api/clients/openai_client.py` client:
a response with at least one choice (whose content `_parse_json_response`
turns into the given record, possibly an `api_error` record) together with
optional token usage, an empty-choices response, a
`RateLimitError`/`APITimeoutError`, or any other exception. -/
inductive ApiAttempt2 where
  | ok (parsed : Record) (usage : Option (ℕ × ℕ × ℕ))
  | empty
  | transient (msg : String)
  | otherExn (msg : String)
  deriving DecidableEq, Repr

/-- Whether the attempt did not return a response with choices. -/
def ApiAttempt2.isFailure : ApiAttempt2 → Bool
  | .ok _ _ => false
  | _ => true

/-- The per-1K-token price table of `OpenAIClient.__init__`
(src/api/clients/openai_client.py 55-59); unknown models fall back to the
"gpt-4-turbo" entry. -/
def tokenCosts (model : String) : ℚ × ℚ :=
  if model = "gpt-4-turbo" then (1 / 100000, 3 / 100000)
  else if model = "gpt-4" then (3 / 100000, 3 / 50000)
  else if model = "gpt-3.5-turbo" then (3 / 2000000, 1 / 500000)
  else (1 / 100000, 3 / 100000)

/-- `OpenAIClient._calculate_cost` (lines 76-96). -/
def calculateCost (model : String) (promptTokens completionTokens : ℕ) : ℚ :=
  let costs := tokenCosts model
  promptTokens * costs.1 + completionTokens * costs.2

/-- The retry loop of `api.clients.openai_client.OpenAIClient
.analyze_transcript`: the loop runs for at most `max_retries` iterations;
`remaining = max_retries - i` counts the iterations left.  When the loop
exhausts, `result["api_error"]` is set to the "Failed after N attempts"
message; a non-transient exception on the final iteration returns its
message as `api_error`.  Returns the result record and the number of
attempts performed. -/
def analyzeAPIGo (callId model : String) (maxRetries : ℕ)
    (outcomes : ℕ → ApiAttempt2) : ℕ → ℕ → Record × ℕ
  | _, 0 =>
    ([("call_id", .s callId),
      ("api_error", .s ("Failed after " ++ toString maxRetries ++ " attempts"))],
     0)
  | i, rem + 1 =>
    match outcomes i with
    | .ok parsed usage =>
      let base : Record := [("call_id", Value.s callId)]
      let withUsage : Record :=
        match usage with
        | none => base
        | some (pt, ct, tt) =>
          base ++ [("token_usage", Value.tok pt ct tt),
                   ("cost", Value.num (calculateCost model pt ct))]
      (recordUpdate withUsage parsed, 1)
    | .empty =>
      let r := analyzeAPIGo callId model maxRetries outcomes (i + 1) rem
      (r.1, r.2 + 1)
    | .transient _ =>
      let r := analyzeAPIGo callId model maxRetries outcomes (i + 1) rem
      (r.1, r.2 + 1)
    | .otherExn msg =>
      match rem with
      | 0 => ([("call_id", .s callId), ("api_error", .s msg)], 1)
      | rem2 + 1 =>
        let r := analyzeAPIGo callId model maxRetries outcomes (i + 1) (rem2 + 1)
        (r.1, r.2 + 1)

/-- `api.clients.openai_client.OpenAIClient.analyze_transcript`. -/
def analyzeTranscriptAPI (maxRetries : ℕ) (model : String)
    (outcomes : ℕ → ApiAttempt2) (callId : String) : Record × ℕ :=
  analyzeAPIGo callId model maxRetries outcomes 0 maxRetries

/-- Helper: a string with a non-empty left component is non-empty. -/
theorem append_ne_empty_of_left (a b : String) (h : 0 < a.length) :
    a ++ b ≠ "" := by
  intro hEq
  have hl := congrArg String.length hEq
  simp [String.length_append] at hl
  omega

theorem analyzeCAGo_all_fail (callId : String) (outcomes : ℕ → ApiAttempt)
    (hfail : ∀ i, (outcomes i).isFailure = true) :
    ∀ (remaining i : ℕ),
      (analyzeCAGo callId outcomes i remaining).2 = remaining + 1 ∧
      (analyzeCAGo callId outcomes i remaining).1.call_id = callId ∧
      (∃ s, (analyzeCAGo callId outcomes i remaining).1.api_error = some s ∧
        s ≠ "") ∧
      (∃ t, (analyzeCAGo callId outcomes i remaining).1.issue_summary = some t ∧
        t ≠ "") := by
  intro remaining
  induction remaining with
  | zero =>
    intro i
    have h := hfail i
    cases houti : outcomes i with
    | ok r => rw [houti] at h; simp [ApiAttempt.isFailure] at h
    | jsonError msg raw =>
      rw [analyzeCAGo, houti]
      refine ⟨rfl, rfl, ⟨_, rfl, ?_⟩, ⟨_, rfl, by decide⟩⟩
      exact append_ne_empty_of_left "JSON parsing error: " msg (by decide)
    | exn etype code msg =>
      rw [analyzeCAGo, houti]
      refine ⟨rfl, rfl, ⟨_, rfl, ?_⟩, ⟨_, rfl, ?_⟩⟩
      · intro hEq
        have hl := congrArg String.length hEq
        simp only [String.length_append] at hl
        simp only [show (" (code: ").length = 8 from rfl] at hl
        simp at hl
      · exact append_ne_empty_of_left "The analysis failed due to an API error: "
          _ (by decide)
  | succ rem ih =>
    intro i
    have h := hfail i
    cases houti : outcomes i with
    | ok r => rw [houti] at h; simp [ApiAttempt.isFailure] at h
    | jsonError msg raw =>
      rw [analyzeCAGo, houti]
      have hi := ih (i + 1)
      exact ⟨congrArg (· + 1) hi.1, hi.2.1, hi.2.2.1, hi.2.2.2⟩
    | exn etype code msg =>
      rw [analyzeCAGo, houti]
      have hi := ih (i + 1)
      exact ⟨congrArg (· + 1) hi.1, hi.2.1, hi.2.2.1, hi.2.2.2⟩

theorem analyzeAPIGo_all_fail (callId model : String) (maxRetries : ℕ)
    (outcomes : ℕ → ApiAttempt2)
    (hfail : ∀ i, (outcomes i).isFailure = true)
    (hmsg : ∀ i m, outcomes i = ApiAttempt2.otherExn m → m ≠ "") :
    ∀ (remaining i : ℕ),
      (analyzeAPIGo callId model maxRetries outcomes i remaining).2 = remaining ∧
      lookupRec (analyzeAPIGo callId model maxRetries outcomes i remaining).1
        "call_id" = some (.s callId) ∧
      (∃ s, lookupRec (analyzeAPIGo callId model maxRetries outcomes i remaining).1
        "api_error" = some (.s s) ∧ s ≠ "") ∧
      lookupRec (analyzeAPIGo callId model maxRetries outcomes i remaining).1
        "issue_summary" = none := by
  intro remaining
  induction remaining with
  | zero =>
    intro i
    rw [analyzeAPIGo]
    refine ⟨rfl, by simp [lookupRec, List.find?],
      ⟨"Failed after " ++ toString maxRetries ++ " attempts",
        by simp [lookupRec, List.find?], ?_⟩, by simp [lookupRec, List.find?]⟩
    exact append_ne_empty_of_left "Failed after " _ (by decide)
  | succ rem ih =>
    intro i
    have h := hfail i
    cases houti : outcomes i with
    | ok parsed usage => rw [houti] at h; simp [ApiAttempt2.isFailure] at h
    | empty =>
      rw [analyzeAPIGo, houti]
      have hi := ih (i + 1)
      exact ⟨congrArg (· + 1) hi.1, hi.2.1, hi.2.2.1, hi.2.2.2⟩
    | transient msg =>
      rw [analyzeAPIGo, houti]
      have hi := ih (i + 1)
      exact ⟨congrArg (· + 1) hi.1, hi.2.1, hi.2.2.1, hi.2.2.2⟩
    | otherExn msg =>
      cases rem with
      | zero =>
        rw [analyzeAPIGo, houti]
        exact ⟨rfl, by simp [lookupRec, List.find?],
          ⟨msg, by simp [lookupRec, List.find?], hmsg i msg houti⟩,
          by simp [lookupRec, List.find?]⟩
      | succ rem2 =>
        rw [analyzeAPIGo, houti]
        have hi := ih (i + 1)
        exact ⟨congrArg (· + 1) hi.1, hi.2.1, hi.2.2.1, hi.2.2.2⟩

/-- C2 (amended): when every attempt fails, both clients return a result
object rather than raising.  The `call_analysis.py` client performs
`max_retries + 1` attempts and its result carries the `call_id`, a
non-empty `api_error` string, and a non-empty degraded `issue_summary`.
The `api/clients/openai_client.py` client performs only `max_retries`
attempts (not `max_retries + 1`) and its result carries the `call_id` and
a non-empty `api_error` (non-empty provided failing exception messages
are non-empty) but **no** `issue_summary`. -/
theorem C2_retry_exhaustion_returns_error_result
    (maxRetries : ℕ) (outcomes1 : ℕ → ApiAttempt) (outcomes2 : ℕ → ApiAttempt2)
    (callId model : String)
    (hfail1 : ∀ i, (outcomes1 i).isFailure = true)
    (hfail2 : ∀ i, (outcomes2 i).isFailure = true)
    (hmsg : ∀ i m, outcomes2 i = ApiAttempt2.otherExn m → m ≠ "") :
    ((analyzeTranscriptCA maxRetries outcomes1 callId).2 = maxRetries + 1 ∧
     (analyzeTranscriptCA maxRetries outcomes1 callId).1.call_id = callId ∧
     (∃ s, (analyzeTranscriptCA maxRetries outcomes1 callId).1.api_error =
        some s ∧ s ≠ "") ∧
     (∃ t, (analyzeTranscriptCA maxRetries outcomes1 callId).1.issue_summary =
        some t ∧ t ≠ "")) ∧
    ((analyzeTranscriptAPI maxRetries model outcomes2 callId).2 = maxRetries ∧
     lookupRec (analyzeTranscriptAPI maxRetries model outcomes2 callId).1
       "call_id" = some (.s callId) ∧
     (∃ s, lookupRec (analyzeTranscriptAPI maxRetries model outcomes2 callId).1
       "api_error" = some (.s s) ∧ s ≠ "") ∧
     lookupRec (analyzeTranscriptAPI maxRetries model outcomes2 callId).1
       "issue_summary" = none) :=
  ⟨analyzeCAGo_all_fail callId outcomes1 hfail1 maxRetries 0,
   analyzeAPIGo_all_fail callId model maxRetries outcomes2 hfail2 hmsg maxRetries 0⟩

/-- Witness for the amended C2 with one retry allowed and every attempt
failing (an exception for the first client, a timeout for the second). -/
theorem C2_retry_exhaustion_returns_error_result_witness :
    ((analyzeTranscriptCA 1 (fun _ => ApiAttempt.exn "APIError" "500" "boom")
        "call-1").2 = 1 + 1 ∧
     (analyzeTranscriptCA 1 (fun _ => ApiAttempt.exn "APIError" "500" "boom")
        "call-1").1.call_id = "call-1" ∧
     (∃ s, (analyzeTranscriptCA 1 (fun _ => ApiAttempt.exn "APIError" "500" "boom")
        "call-1").1.api_error = some s ∧ s ≠ "") ∧
     (∃ t, (analyzeTranscriptCA 1 (fun _ => ApiAttempt.exn "APIError" "500" "boom")
        "call-1").1.issue_summary = some t ∧ t ≠ "")) ∧
    ((analyzeTranscriptAPI 1 "gpt-4o"
        (fun _ => ApiAttempt2.transient "Request timed out") "call-1").2 = 1 ∧
     lookupRec (analyzeTranscriptAPI 1 "gpt-4o"
        (fun _ => ApiAttempt2.transient "Request timed out") "call-1").1
       "call_id" = some (.s "call-1") ∧
     (∃ s, lookupRec (analyzeTranscriptAPI 1 "gpt-4o"
        (fun _ => ApiAttempt2.transient "Request timed out") "call-1").1
       "api_error" = some (.s s) ∧ s ≠ "") ∧
     lookupRec (analyzeTranscriptAPI 1 "gpt-4o"
        (fun _ => ApiAttempt2.transient "Request timed out") "call-1").1
       "issue_summary" = none) :=
  C2_retry_exhaustion_returns_error_result 1 _ _ "call-1" "gpt-4o"
    (fun _ => rfl) (fun _ => rfl) (fun _ m h => by cases h)

/-- C2 counterexample: with `max_retries = 3` and every attempt timing
out, the `api/clients/openai_client.py` client performs 3 attempts, not
`max_retries + 1 = 4`, and its exhaustion result carries no
`issue_summary` — refuting the claim as stated for this implementation of
`analyze_transcript`. -/
theorem C2_counterexample_api_client_three_attempts :
    (analyzeTranscriptAPI 3 "gpt-4-turbo"
        (fun _ => ApiAttempt2.transient "Request timed out") "call-1").2 = 3 ∧
    ¬ ((analyzeTranscriptAPI 3 "gpt-4-turbo"
        (fun _ => ApiAttempt2.transient "Request timed out") "call-1").2 = 3 + 1) ∧
    lookupRec (analyzeTranscriptAPI 3 "gpt-4-turbo"
        (fun _ => ApiAttempt2.transient "Request timed out") "call-1").1
      "issue_summary" = none := by
  decide

/-! ### Rate limiting (`OpenAIClient._rate_limit`,
src/api/clients/openai_client.py 60-70).  Time is modelled logically over
ℚ: the environment supplies the clock reading `now n` taken at the start
of the n-th `_rate_limit` call, and `eps n ≥ 0`, the amount by which the
post-sleep clock reading exceeds the mandated wake-up instant
(`asyncio.sleep` never wakes early).  An outbound call is issued at the
moment the fresh reading is stored into `self.last_call_time`. -/

/-- `self.min_seconds_between_calls = 60.0 / rate_limit_rpm`. -/
def minSecondsBetweenCalls (rpm : ℚ) : ℚ := 60 / rpm

/-- The sleep `_rate_limit` performs: `min_interval - elapsed` when the
elapsed time since the last call is below the interval, otherwise nothing
— i.e. `max(0, min_interval - (now - last))`. -/
def rateLimitDelay (minInterval lastCall now : ℚ) : ℚ :=
  max 0 (minInterval - (now - lastCall))

/-- The successive values of `self.last_call_time`: initially 0
(`__init__`); for the n-th call, `_rate_limit` reads the clock, sleeps
`rateLimitDelay`, and stores a fresh reading (wake-up instant plus
`eps n`).  The n-th outbound call is issued at `lastCallTime (n + 1)`. -/
def lastCallTime (minInterval : ℚ) (now eps : ℕ → ℚ) : ℕ → ℚ
  | 0 => 0
  | n + 1 =>
    now n + rateLimitDelay minInterval (lastCallTime minInterval now eps n) (now n)
      + eps n

/-- C5: the rate-limited client never issues two consecutive outbound
calls closer together than `60 / rate_limit_rpm` seconds: the timestamp of
the previous call is tracked, the sleep before each call is
`max(0, min_interval - elapsed)`, and therefore the instants at which
consecutive calls are issued are at least `min_interval` apart. -/
theorem C5_rate_limiter_minimum_spacing (rpm : ℚ) (now eps : ℕ → ℚ)
    (heps : ∀ n, 0 ≤ eps n) :
    ∀ n, minSecondsBetweenCalls rpm ≤
      lastCallTime (minSecondsBetweenCalls rpm) now eps (n + 2) -
      lastCallTime (minSecondsBetweenCalls rpm) now eps (n + 1) := by
  intro n
  have h1 : lastCallTime (minSecondsBetweenCalls rpm) now eps (n + 2) =
      now (n + 1) +
      rateLimitDelay (minSecondsBetweenCalls rpm)
        (lastCallTime (minSecondsBetweenCalls rpm) now eps (n + 1)) (now (n + 1)) +
      eps (n + 1) := rfl
  have hd : minSecondsBetweenCalls rpm -
      (now (n + 1) - lastCallTime (minSecondsBetweenCalls rpm) now eps (n + 1)) ≤
      rateLimitDelay (minSecondsBetweenCalls rpm)
        (lastCallTime (minSecondsBetweenCalls rpm) now eps (n + 1))
        (now (n + 1)) := le_max_right _ _
  have he := heps (n + 1)
  rw [h1]
  linarith

/-- Witness for C5: 60 requests per minute (interval 1s), the clock
ticking one second per call, exact wake-ups; the gap between the first
and second outbound calls is at least one second. -/
theorem C5_rate_limiter_minimum_spacing_witness :
    minSecondsBetweenCalls 60 ≤
      lastCallTime (minSecondsBetweenCalls 60) (fun k => (k : ℚ)) (fun _ => 0) 2 -
      lastCallTime (minSecondsBetweenCalls 60) (fun k => (k : ℚ)) (fun _ => 0) 1 :=
  C5_rate_limiter_minimum_spacing 60 (fun k => (k : ℚ)) (fun _ => 0)
    (fun _ => le_refl 0) 0

/-! ### Cooperative cancellation (`GracefulExit`, src/call_analysis.py
111-124, and the batch loop of
`DbCallAnalysisService.process_transcriptions`, src/analyze_with_db.py
272-286).  The loop is modelled by the trace of its observable events:
flag checks at the top of each iteration, per-item processing inside
`analyze_batch`, and the batch save. -/

/-- A work item handed to `analyze_batch`: its transcription text. -/
structure WorkItem where
  transcription : String
  deriving DecidableEq, Repr

/-- `prepare_batch_prompts` keeps an item iff its transcription is a
non-empty string that does not start with "ERROR:"
(src/analyze_with_db.py 147-171). -/
def validWorkItem (it : WorkItem) : Bool :=
  it.transcription ≠ "" && !(startsWithList "ERROR:".data it.transcription.data)

/-- The operations available on the `GracefulExit` flag: the signal
handler (sets `exit_requested = True`) and `should_exit` (reads it).
There is no operation that clears the flag. -/
inductive GEOp where
  | signalHandler
  | shouldExit
  deriving DecidableEq, Repr

/-- Effect of one `GracefulExit` operation on `exit_requested`. -/
def geStep (flag : Bool) : GEOp → Bool
  | .signalHandler => true
  | .shouldExit => flag

/-- `exit_requested` after a sequence of operations (initially `False`
in `__init__`). -/
def geRun (ops : List GEOp) (init : Bool) : Bool := ops.foldl geStep init

/-- Observable events of a `process_transcriptions` run. -/
inductive Event where
  | checkFlag (k : ℕ) (observed : Bool)
  | processItem (k : ℕ) (it : WorkItem)
  | saveBatch (k : ℕ)
  deriving DecidableEq, Repr

/-- The batch index an event belongs to. -/
def eventIdx : Event → ℕ
  | .checkFlag k _ => k
  | .processItem k _ => k
  | .saveBatch k => k

/-- The events of processing one batch to completion: each valid item is
analyzed, then (if anything was produced) the batch results are persisted
(src/analyze_with_db.py 281-286). -/
def batchTrace (k : ℕ) (b : List WorkItem) : List Event :=
  (b.filter validWorkItem).map (Event.processItem k) ++
    (if (b.filter validWorkItem).isEmpty then [] else [Event.saveBatch k])

/-- The event trace of the batch loop (src/analyze_with_db.py 272-286):
at the top of each iteration the cancellation flag is consulted; if it is
set the loop breaks, otherwise the whole batch is processed and saved
before the next consultation. -/
def runTrace (flag : ℕ → Bool) : List (List WorkItem) → ℕ → List Event
  | [], _ => []
  | b :: rest, k =>
    if flag k then [Event.checkFlag k true]
    else Event.checkFlag k false ::
      (batchTrace k b ++ runTrace flag rest (k + 1))

theorem batchTrace_mem (k : ℕ) (b : List WorkItem) (e : Event)
    (he : e ∈ batchTrace k b) :
    (∃ it, it ∈ b.filter validWorkItem ∧ e = .processItem k it) ∨
    (e = .saveBatch k ∧ (b.filter validWorkItem).isEmpty = false) := by
  rw [batchTrace] at he
  rcases List.mem_append.mp he with h | h
  · rcases List.mem_map.mp h with ⟨it, hit, hE⟩
    exact Or.inl ⟨it, hit, hE.symm⟩
  · by_cases hemp : (b.filter validWorkItem).isEmpty
    · simp [hemp] at h
    · simp only [Bool.not_eq_true] at hemp
      rw [if_neg (by simp [hemp])] at h
      rcases List.mem_singleton.mp h with rfl
      exact Or.inr ⟨rfl, hemp⟩

theorem saveBatch_mem_batchTrace (k : ℕ) (b : List WorkItem)
    (hne : (b.filter validWorkItem).isEmpty = false) :
    Event.saveBatch k ∈ batchTrace k b := by
  rw [batchTrace, if_neg (by simp [hne])]
  exact List.mem_append_right _ (List.mem_singleton.mpr rfl)

theorem runTrace_idx_ge (flag : ℕ → Bool) :
    ∀ (batches : List (List WorkItem)) (k0 : ℕ) (e : Event),
      e ∈ runTrace flag batches k0 → k0 ≤ eventIdx e := by
  intro batches
  induction batches with
  | nil => intro k0 e h; simp [runTrace] at h
  | cons b rest ih =>
    intro k0 e h
    rw [runTrace] at h
    by_cases hf : flag k0
    · rw [if_pos hf] at h
      rcases List.mem_singleton.mp h with rfl
      exact le_refl k0
    · rw [if_neg hf] at h
      rcases List.mem_cons.mp h with rfl | hmem
      · exact le_refl k0
      · rcases List.mem_append.mp hmem with hb | hr
        · rcases batchTrace_mem k0 b e hb with ⟨it, _, rfl⟩ | ⟨rfl, _⟩ <;>
            exact le_refl k0
        · exact le_trans (Nat.le_succ k0) (ih (k0 + 1) e hr)

theorem runTrace_processed_saved (flag : ℕ → Bool) :
    ∀ (batches : List (List WorkItem)) (k0 k : ℕ) (it : WorkItem),
      Event.processItem k it ∈ runTrace flag batches k0 →
      Event.saveBatch k ∈ runTrace flag batches k0 := by
  intro batches
  induction batches with
  | nil => intro k0 k it h; simp [runTrace] at h
  | cons b rest ih =>
    intro k0 k it h
    rw [runTrace] at h ⊢
    by_cases hf : flag k0
    · rw [if_pos hf] at h
      simp at h
    · rw [if_neg hf] at h ⊢
      rcases List.mem_cons.mp h with hEq | hmem
      · exact absurd hEq (by simp)
      · rcases List.mem_append.mp hmem with hb | hr
        · rcases batchTrace_mem k0 b _ hb with ⟨it2, hit2, hE⟩ | ⟨hE, _⟩
          · obtain ⟨hk, -⟩ : k = k0 ∧ it = it2 := by simpa using hE
            subst hk
            have hne : (b.filter validWorkItem).isEmpty = false := by
              have hnil : b.filter validWorkItem ≠ [] := List.ne_nil_of_mem hit2
              simpa [List.isEmpty_iff] using hnil
            exact List.mem_cons_of_mem _
              (List.mem_append_left _ (saveBatch_mem_batchTrace k b hne))
          · exact absurd hE (by simp)
        · exact List.mem_cons_of_mem _
            (List.mem_append_right _ (ih (k0 + 1) k it hr))

theorem runTrace_no_start_after_cancel (flag : ℕ → Bool) :
    ∀ (batches : List (List WorkItem)) (k0 k k' : ℕ) (it : WorkItem),
      Event.checkFlag k true ∈ runTrace flag batches k0 →
      Event.processItem k' it ∈ runTrace flag batches k0 → k' < k := by
  intro batches
  induction batches with
  | nil => intro k0 k k' it hc hp; simp [runTrace] at hc
  | cons b rest ih =>
    intro k0 k k' it hc hp
    rw [runTrace] at hc hp
    by_cases hf : flag k0
    · rw [if_pos hf] at hp
      simp at hp
    · rw [if_neg hf] at hc hp
      have hcr : Event.checkFlag k true ∈ runTrace flag rest (k0 + 1) := by
        rcases List.mem_cons.mp hc with hEq | hmem
        · exact absurd hEq (by simp)
        · rcases List.mem_append.mp hmem with hb | hr
          · rcases batchTrace_mem k0 b _ hb with ⟨it2, _, hE⟩ | ⟨hE, _⟩ <;>
              exact absurd hE (by simp)
          · exact hr
      have hk : k0 + 1 ≤ k := runTrace_idx_ge flag rest (k0 + 1) _ hcr
      rcases List.mem_cons.mp hp with hEq | hmem
      · exact absurd hEq (by simp)
      · rcases List.mem_append.mp hmem with hb | hr
        · rcases batchTrace_mem k0 b _ hb with ⟨it2, _, hE⟩ | ⟨hE, _⟩
          · obtain ⟨hk', -⟩ : k' = k0 ∧ it = it2 := by simpa using hE
            omega
          · exact absurd hE (by simp)
        · exact ih (k0 + 1) k k' it hcr hr

theorem runTrace_save_before_next_check (flag : ℕ → Bool) :
    ∀ (batches : List (List WorkItem)) (k0 j : ℕ) (b : List WorkItem) (v : Bool),
      batches[j]? = some b → (b.filter validWorkItem).isEmpty = false →
      Event.checkFlag (k0 + j + 1) v ∈ runTrace flag batches k0 →
      [Event.saveBatch (k0 + j), Event.checkFlag (k0 + j + 1) v].Sublist
        (runTrace flag batches k0) := by
  intro batches
  induction batches with
  | nil => intro k0 j b v hj _ _; simp at hj
  | cons b0 rest ih =>
    intro k0 j b v hj hne hk
    cases j with
    | zero =>
      have hb : b = b0 := by simpa using hj.symm
      subst hb
      rw [runTrace] at hk ⊢
      by_cases hf : flag k0
      · rw [if_pos hf] at hk
        have hk2 := List.mem_singleton.mp hk
        simp only [Event.checkFlag.injEq] at hk2
        omega
      · rw [if_neg hf] at hk ⊢
        have hkr : Event.checkFlag (k0 + 0 + 1) v ∈ runTrace flag rest (k0 + 1) := by
          rcases List.mem_cons.mp hk with hEq | hmem
          · simp only [Event.checkFlag.injEq] at hEq
            exact absurd hEq.1 (by omega)
          · rcases List.mem_append.mp hmem with hbm | hr
            · rcases batchTrace_mem k0 b _ hbm with ⟨it2, _, hE⟩ | ⟨hE, _⟩ <;>
                exact absurd hE (by simp)
            · exact hr
        have h1 : List.Sublist [Event.saveBatch (k0 + 0)] (batchTrace k0 b) :=
          List.singleton_sublist.mpr
            (by simpa using saveBatch_mem_batchTrace k0 b hne)
        have h2 : List.Sublist [Event.checkFlag (k0 + 0 + 1) v]
            (runTrace flag rest (k0 + 1)) :=
          List.singleton_sublist.mpr hkr
        exact (h1.append h2).cons _
    | succ j2 =>
      have hj2 : rest[j2]? = some b := by simpa using hj
      rw [runTrace] at hk ⊢
      by_cases hf : flag k0
      · rw [if_pos hf] at hk
        have hk2 := List.mem_singleton.mp hk
        simp only [Event.checkFlag.injEq] at hk2
        omega
      · rw [if_neg hf] at hk ⊢
        have hidx : k0 + (j2 + 1) + 1 = (k0 + 1) + j2 + 1 := by omega
        have hidx2 : k0 + (j2 + 1) = (k0 + 1) + j2 := by omega
        have hkr : Event.checkFlag ((k0 + 1) + j2 + 1) v ∈
            runTrace flag rest (k0 + 1) := by
          rcases List.mem_cons.mp hk with hEq | hmem
          · simp only [Event.checkFlag.injEq] at hEq
            exact absurd hEq.1 (by omega)
          · rcases List.mem_append.mp hmem with hbm | hr
            · rcases batchTrace_mem k0 b0 _ hbm with ⟨it2, _, hE⟩ | ⟨hE, _⟩ <;>
                exact absurd hE (by simp)
            · rw [hidx] at hr; exact hr
        have hsub := ih (k0 + 1) j2 b v hj2 hne hkr
        rw [hidx, hidx2]
        exact (hsub.trans (List.sublist_append_right _ _)).cons _

theorem geRun_once_set_stays_set : ∀ ops : List GEOp, geRun ops true = true := by
  intro ops
  induction ops with
  | nil => rfl
  | cons op rest ih => cases op <;> simpa [geRun, geStep] using ih

/-- C6: cancellation is cooperative and batch-granular.  For every run
of the batch loop: (1) every batch in which an item was processed also
persists its results within the same run; (2) once a flag consultation
observes the flag set, no item of that or any later batch is processed —
the orchestrator never starts another batch; (3) a batch that produced
results is saved *before* the next flag consultation (the flag is
consulted only between batches); and (4) the `GracefulExit` flag has no
reset: once `exit_requested` is true, it stays true under any sequence of
signal-handler and `should_exit` operations. -/
theorem C6_cancellation_cooperative_batch_granular (flag : ℕ → Bool)
    (batches : List (List WorkItem)) :
    (∀ k it, Event.processItem k it ∈ runTrace flag batches 0 →
      Event.saveBatch k ∈ runTrace flag batches 0) ∧
    (∀ k k' it, Event.checkFlag k true ∈ runTrace flag batches 0 →
      Event.processItem k' it ∈ runTrace flag batches 0 → k' < k) ∧
    (∀ j b v, batches[j]? = some b →
      (b.filter validWorkItem).isEmpty = false →
      Event.checkFlag (j + 1) v ∈ runTrace flag batches 0 →
      [Event.saveBatch j, Event.checkFlag (j + 1) v].Sublist
        (runTrace flag batches 0)) ∧
    (∀ ops : List GEOp, geRun ops true = true) := by
  refine ⟨fun k it h => runTrace_processed_saved flag batches 0 k it h,
    fun k k' it hc hp => runTrace_no_start_after_cancel flag batches 0 k k' it hc hp,
    fun j b v hj hne hk => ?_, geRun_once_set_stays_set⟩
  have := runTrace_save_before_next_check flag batches 0 j b v hj hne
    (by simpa using hk)
  simpa using this

/-- Witness for C6: one single-item batch, a flag that is set from index 1
on; the item's batch is saved, and the set flag stays set. -/
theorem C6_cancellation_cooperative_batch_granular_witness :
    Event.saveBatch 0 ∈
      runTrace (fun k => decide (1 ≤ k)) [[⟨"hello."⟩]] 0 ∧
    geRun [GEOp.shouldExit, GEOp.signalHandler, GEOp.shouldExit] true = true :=
  have h := C6_cancellation_cooperative_batch_granular
    (fun k => decide (1 ≤ k)) [[⟨"hello."⟩]]
  ⟨h.1 0 ⟨"hello."⟩ (by decide),
   h.2.2.2 [GEOp.shouldExit, GEOp.signalHandler, GEOp.shouldExit]⟩

/-! ### Idempotent CSV transcription import
(`DatabaseManager.import_transcriptions_from_csv`,
src/database_manager.py 168-226).  The content hash (`hashlib.md5(...)
.hexdigest()`) and the filename date extraction
(`TextProcessor.extract_date_from_filename`) are collaborator functions
supplied as parameters. -/

/-- A row of the `transcriptions` table (the columns this import touches;
the autoincrement id and the timestamp are omitted). -/
structure TransRow where
  call_id : String
  file_name : String
  call_date : String
  duration_seconds : Int
  transcription : String
  hash_value : String
  deriving DecidableEq, Repr

/-- An incoming CSV row (`file_name`, `transcription`, `duration_seconds`). -/
structure CsvRow where
  file_name : String
  transcription : String
  duration_seconds : Int
  deriving DecidableEq, Repr

/-- The skip test of lines 183-185: a row is imported only when its
transcription is non-blank after stripping and does not start with
"ERROR:". -/
def validCsvRow (row : CsvRow) : Bool :=
  !(row.transcription.data.all Char.isWhitespace) &&
  !(startsWithList "ERROR:".data row.transcription.data)

/-- The `INSERT ... ON CONFLICT(call_id) DO UPDATE SET transcription,
hash_value, import_timestamp` of lines 206-215: on conflict only the
transcription and hash (and timestamp) are replaced, otherwise the full
new row is inserted. -/
def upsertTransRow : List TransRow → TransRow → List TransRow
  | [], newRow => [newRow]
  | r :: rest, newRow =>
    if r.call_id = newRow.call_id then
      { r with transcription := newRow.transcription,
               hash_value := newRow.hash_value } :: rest
    else r :: upsertTransRow rest newRow

/-- Processing of one CSV row (lines 179-218): skip invalid rows; compute
the content hash; if a stored row for this `call_id` (the file name) has
the same hash, skip; otherwise upsert and increment the imported count. -/
def importCsvRow (hashFn extractDate : String → String)
    (table : List TransRow) (count : ℕ) (row : CsvRow) :
    List TransRow × ℕ :=
  if validCsvRow row then
    -- `if result and result['hash_value'] == hash_value: continue`
    if (table.find? (fun r => r.call_id = row.file_name)).any
        (fun stored => stored.hash_value = hashFn row.transcription) then
      (table, count)
    else
      (upsertTransRow table
        { call_id := row.file_name, file_name := row.file_name,
          call_date := extractDate row.file_name,
          duration_seconds := row.duration_seconds,
          transcription := row.transcription,
          hash_value := hashFn row.transcription }, count + 1)
  else (table, count)

/-- `import_transcriptions_from_csv` over a whole CSV file: fold the
per-row step, starting from an imported count of 0. -/
def importTranscriptionsFromCsv (hashFn extractDate : String → String)
    (table : List TransRow) (rows : List CsvRow) : List TransRow × ℕ :=
  rows.foldl (fun st row => importCsvRow hashFn extractDate st.1 st.2 row)
    (table, 0)

theorem upsertTransRow_updated_mem (t : List TransRow) (nr : TransRow) :
    ∃ r, r ∈ upsertTransRow t nr ∧ r.call_id = nr.call_id ∧
      r.transcription = nr.transcription ∧ r.hash_value = nr.hash_value := by
  induction t with
  | nil => exact ⟨nr, by simp [upsertTransRow], rfl, rfl, rfl⟩
  | cons r0 rest ih =>
    by_cases h : r0.call_id = nr.call_id
    · refine ⟨{ r0 with transcription := nr.transcription, hash_value := nr.hash_value }, ?_, by simpa using h, rfl, rfl⟩
      rw [upsertTransRow, if_pos h]
      exact List.mem_cons_self _ _
    · obtain ⟨r, hr, h1, h2, h3⟩ := ih
      refine ⟨r, ?_, h1, h2, h3⟩
      rw [upsertTransRow, if_neg h]
      exact List.mem_cons_of_mem _ hr

/-- C7: re-importing a CSV row whose key (`call_id`, i.e. the file name)
and content hash both match the stored row is a no-op — the row is
skipped, the table is unchanged and the imported/changed count does not
increase; a row for the same key with a different content hash is
upserted (the stored transcription and hash are replaced) and counted. -/
theorem C7_csv_reimport_unchanged_skipped (hashFn extractDate : String → String)
    (table : List TransRow) (count : ℕ) (row : CsvRow) (stored : TransRow)
    (hvalid : validCsvRow row = true)
    (hfind : table.find? (fun r => r.call_id = row.file_name) = some stored) :
    (stored.hash_value = hashFn row.transcription →
      importCsvRow hashFn extractDate table count row = (table, count)) ∧
    (stored.hash_value ≠ hashFn row.transcription →
      (importCsvRow hashFn extractDate table count row).2 = count + 1 ∧
      ∃ r, r ∈ (importCsvRow hashFn extractDate table count row).1 ∧
        r.call_id = row.file_name ∧
        r.transcription = row.transcription ∧
        r.hash_value = hashFn row.transcription) := by
  constructor
  · intro hsame
    rw [importCsvRow, if_pos hvalid, hfind,
      if_pos (by simp [Option.any, hsame])]
  · intro hdiff
    rw [importCsvRow, if_pos hvalid, hfind,
      if_neg (by simp [Option.any, hdiff])]
    refine ⟨rfl, ?_⟩
    simpa using upsertTransRow_updated_mem table
      { call_id := row.file_name, file_name := row.file_name,
        call_date := extractDate row.file_name,
        duration_seconds := row.duration_seconds,
        transcription := row.transcription,
        hash_value := hashFn row.transcription }

/-- A stored transcription row whose hash (under the identity hash used
in the witness) matches its text. -/
def storedTransRow : TransRow :=
  { call_id := "f1.mp3", file_name := "f1.mp3", call_date := "",
    duration_seconds := 30, transcription := "hello there",
    hash_value := "hello there" }

/-- Witness for C7 with the identity function as content hash: an
unchanged row is skipped without counting; a changed row is upserted and
counted. -/
theorem C7_csv_reimport_unchanged_skipped_witness :
    (importCsvRow id (fun _ => "") [storedTransRow] 0
      { file_name := "f1.mp3", transcription := "hello there",
        duration_seconds := 30 } = ([storedTransRow], 0)) ∧
    ((importCsvRow id (fun _ => "") [storedTransRow] 0
      { file_name := "f1.mp3", transcription := "changed text",
        duration_seconds := 30 }).2 = 0 + 1 ∧
      ∃ r, r ∈ (importCsvRow id (fun _ => "") [storedTransRow] 0
        { file_name := "f1.mp3", transcription := "changed text",
          duration_seconds := 30 }).1 ∧
        r.call_id = "f1.mp3" ∧
        r.transcription = "changed text" ∧
        r.hash_value = id "changed text") :=
  have h1 := C7_csv_reimport_unchanged_skipped id (fun _ => "")
    [storedTransRow] 0
    { file_name := "f1.mp3", transcription := "hello there",
      duration_seconds := 30 } storedTransRow (by decide) (by decide)
  have h2 := C7_csv_reimport_unchanged_skipped id (fun _ => "")
    [storedTransRow] 0
    { file_name := "f1.mp3", transcription := "changed text",
      duration_seconds := 30 } storedTransRow (by decide) (by decide)
  ⟨h1.1 (by decide), h2.2 (by decide)⟩

/-! ### Connection pool (`ConnectionPool`,
src/dao/db_connection_pool.py 18-109).  The pool's bookkeeping
(`active_connections` — created and not yet closed — and the number of
idle connections in the queue) is modelled as a state machine over
acquire/release operations. -/

/-- The pool's bookkeeping state. -/
structure PoolState where
  active : ℕ
  idle : ℕ
  deriving DecidableEq, Repr

/-- `_initialize_pool` (lines 41-45): one connection is created up front
(`active_connections = 1`; the created connection is returned to the
initializer and never placed in the queue). -/
def initPool : PoolState := { active := 1, idle := 0 }

/-- `queue.Queue(maxsize=max_connections)` is full iff `maxsize` is
positive and that many items are queued (`maxsize <= 0` means an
unbounded queue in Python). -/
def queueFull (maxConnections idle : ℕ) : Bool :=
  0 < maxConnections && maxConnections ≤ idle

/-- Result of `get_connection`. -/
inductive GetOutcome where
  | got
  | timedOut
  deriving DecidableEq, Repr

/-- `get_connection` (lines 65-93): take an idle pooled connection if
any; otherwise create a new one while `active_connections` is under the
limit; otherwise block on the queue — `releasedDuringWait` says whether
another holder returned a connection before the timeout; if not,
`TimeoutError` is raised (the state is unchanged, the bound never
exceeded). -/
def getConnection (maxConnections : ℕ) (s : PoolState)
    (releasedDuringWait : Bool) : PoolState × GetOutcome :=
  if 0 < s.idle then ({ s with idle := s.idle - 1 }, .got)
  else if s.active < maxConnections then
    ({ s with active := s.active + 1 }, .got)
  else if releasedDuringWait then (s, .got)
  else (s, .timedOut)

/-- `return_connection` (lines 95-109): put the connection back into the
queue, or close it (decrementing `active_connections`) when the queue is
already full. -/
def returnConnection (maxConnections : ℕ) (s : PoolState) : PoolState :=
  if queueFull maxConnections s.idle then { s with active := s.active - 1 }
  else { s with idle := s.idle + 1 }

/-- A caller-visible pool operation. -/
inductive PoolOp where
  | acquire (releasedDuringWait : Bool)
  | release
  deriving DecidableEq, Repr

/-- State transition of one pool operation. -/
def poolStep (maxConnections : ℕ) (s : PoolState) : PoolOp → PoolState
  | .acquire r => (getConnection maxConnections s r).1
  | .release => returnConnection maxConnections s

/-- The state reached from initialization by a sequence of operations. -/
def runPool (maxConnections : ℕ) (ops : List PoolOp) : PoolState :=
  ops.foldl (poolStep maxConnections) initPool

theorem poolStep_active_le (maxConnections : ℕ) (s : PoolState)
    (op : PoolOp) (h : s.active ≤ maxConnections) :
    (poolStep maxConnections s op).active ≤ maxConnections := by
  cases op with
  | acquire r =>
    rw [poolStep, getConnection]
    by_cases h1 : 0 < s.idle
    · simpa [h1] using h
    · rw [if_neg h1]
      by_cases h2 : s.active < maxConnections
      · rw [if_pos h2]
        simp only
        omega
      · rw [if_neg h2]
        cases r <;> simpa using h
  | release =>
    rw [poolStep, returnConnection]
    by_cases hq : queueFull maxConnections s.idle <;> simp [hq] <;> omega

theorem runPool_active_le_aux (maxConnections : ℕ) :
    ∀ (ops : List PoolOp) (s : PoolState), s.active ≤ maxConnections →
      (ops.foldl (poolStep maxConnections) s).active ≤ maxConnections := by
  intro ops
  induction ops with
  | nil => intro s h; exact h
  | cons op rest ih =>
    intro s h
    exact ih _ (poolStep_active_le maxConnections s op h)

/-- C8 (amended): for every pool configured with `max_connections ≥ 1`,
at every reachable state the number of connections created and not yet
closed is at most `max_connections`; and when the pool is saturated (no
idle connection, `active = max_connections`) a further `get_connection`
with no release arriving during the wait fails with `TimeoutError`,
leaving the state unchanged rather than exceeding the bound.  (For
`max_connections = 0` the claim is false: initialization itself creates
one connection, see the counterexample.) -/
theorem C8_pool_bound_and_timeout (maxConnections : ℕ)
    (hmax : 1 ≤ maxConnections) :
    (∀ ops : List PoolOp,
      (runPool maxConnections ops).active ≤ maxConnections) ∧
    (∀ ops : List PoolOp,
      (runPool maxConnections ops).idle = 0 →
      (runPool maxConnections ops).active = maxConnections →
      getConnection maxConnections (runPool maxConnections ops) false =
        (runPool maxConnections ops, .timedOut)) := by
  constructor
  · intro ops
    exact runPool_active_le_aux maxConnections ops initPool hmax
  · intro ops hidle hact
    rw [getConnection, hidle, hact]
    simp

/-- Witness for the amended C8: a pool with limit 2, saturated by two
acquisitions, stays within the bound and times out a third acquisition. -/
theorem C8_pool_bound_and_timeout_witness :
    (runPool 2 [PoolOp.acquire false, PoolOp.acquire false]).active ≤ 2 ∧
    getConnection 2 (runPool 2 [PoolOp.acquire false, PoolOp.acquire false])
      false =
      (runPool 2 [PoolOp.acquire false, PoolOp.acquire false],
        GetOutcome.timedOut) :=
  have h := C8_pool_bound_and_timeout 2 (by decide)
  ⟨h.1 [PoolOp.acquire false, PoolOp.acquire false],
   h.2 [PoolOp.acquire false, PoolOp.acquire false] (by decide) (by decide)⟩

/-- C8 counterexample: with `max_connections = 0`, `_initialize_pool`
creates one connection before any operation, so the initial (reachable)
state already violates "created and not yet closed ≤ max_connections". -/
theorem C8_counterexample_zero_max_connections :
    (runPool 0 []).active = 1 ∧ ¬ ((runPool 0 []).active ≤ 0) := by
  decide

/-! ### Store-failure handling during batch persistence
(`DbDataManager.save_analysis_results`, src/analyze_with_db.py 75-97,
driving `DatabaseManager.save_analysis_result`). -/

/-- Whether `save_analysis_result` succeeds for record `r`: the record
must carry a truthy `call_id` and the store write must not fail. -/
def saveSucceeds (storeFails : Record → Bool) (r : Record) : Bool :=
  match lookupRec r "call_id" with
  | none => false
  | some v => v.truthy && !(storeFails r)

theorem saveAnalysisResult_snd (storeFails : Record → Bool)
    (table : List Record) (r : Record) :
    (saveAnalysisResult storeFails table r).2 = saveSucceeds storeFails r := by
  rw [saveAnalysisResult, saveSucceeds]
  cases hl : lookupRec r "call_id" with
  | none => rfl
  | some v =>
    by_cases ht : v.truthy = false
    · simp [ht]
    · simp only [Bool.not_eq_false] at ht
      by_cases hf : storeFails r = true
      · simp [ht, hf]
      · simp only [Bool.not_eq_true] at hf
        simp [ht, hf]

/-- `DbDataManager.save_analysis_results` (src/analyze_with_db.py
75-97): save each result of the batch in turn, counting the successes;
a failed save (which `save_analysis_result` reports as `False`, never an
exception) does not stop the loop. -/
def saveAnalysisResults (storeFails : Record → Bool) (table : List Record)
    (items : List Record) : List Record × ℕ :=
  items.foldl
    (fun st r =>
      let res := saveAnalysisResult storeFails st.1 r
      (res.1, if res.2 then st.2 + 1 else st.2))
    (table, 0)

theorem saveAnalysisResults_count_aux (storeFails : Record → Bool) :
    ∀ (items : List Record) (t : List Record) (c : ℕ),
      (items.foldl
        (fun st r =>
          let res := saveAnalysisResult storeFails st.1 r
          (res.1, if res.2 then st.2 + 1 else st.2))
        (t, c)).2 = c + (items.filter (saveSucceeds storeFails)).length := by
  intro items
  induction items with
  | nil => intro t c; simp
  | cons r rest ih =>
    intro t c
    rw [List.foldl_cons, List.filter_cons]
    by_cases hs : saveSucceeds storeFails r = true
    · simp only [hs, if_true]
      rw [show (if (saveAnalysisResult storeFails t r).2 then c + 1 else c) =
        c + 1 from by rw [saveAnalysisResult_snd, hs]; rfl]
      rw [ih _ (c + 1)]
      simp [Nat.add_comm, Nat.add_assoc, Nat.add_left_comm]
    · simp only [Bool.not_eq_true] at hs
      simp only [hs, Bool.false_eq_true, if_false]
      rw [show (if (saveAnalysisResult storeFails t r).2 then c + 1 else c) =
        c from by rw [saveAnalysisResult_snd, hs]; rfl]
      exact ih _ c

/-- C9 (amended): a store write failure while saving a batch's results is
caught inside `save_analysis_result`, which returns `False` with the
table unchanged (no partial write, no exception re-raised); the
orchestrator's `save_analysis_results` continues through the remaining
items of the batch, counting exactly the successful saves. -/
theorem C9_store_failure_swallowed_batch_continues
    (storeFails : Record → Bool) (table : List Record) (r : Record)
    (items : List Record) (hfail : storeFails r = true) :
    saveAnalysisResult storeFails table r = (table, false) ∧
    (saveAnalysisResults storeFails table items).2 =
      (items.filter (saveSucceeds storeFails)).length := by
  constructor
  · rw [saveAnalysisResult]
    cases hl : lookupRec r "call_id" with
    | none => rfl
    | some v =>
      by_cases ht : v.truthy = false
      · simp [ht]
      · simp [ht, hfail]
  · simpa using saveAnalysisResults_count_aux storeFails items table 0

/-- The store-failure model of the C9 witness and counterexample: the
write fails exactly for the record keyed "bad-1". -/
def failingStore : Record → Bool :=
  fun r => lookupRec r "call_id" = some (.s "bad-1")

/-- A batch item whose write fails. -/
def recBad : Record :=
  [("call_id", Value.s "bad-1"), ("analysis_status", Value.s "completed")]

/-- A batch item whose write succeeds. -/
def recGood : Record :=
  [("call_id", Value.s "good-1"), ("analysis_status", Value.s "completed")]

/-- Witness for the amended C9: with the first item's write failing, the
failing save returns `False` with the store unchanged, and the two-item
batch still counts its one success. -/
theorem C9_store_failure_swallowed_batch_continues_witness :
    saveAnalysisResult failingStore [] recBad = ([], false) ∧
    (saveAnalysisResults failingStore [] [recBad, recGood]).2 =
      ([recBad, recGood].filter (saveSucceeds failingStore)).length :=
  C9_store_failure_swallowed_batch_continues failingStore [] recBad
    [recBad, recGood] (by decide)

/-- C9 counterexample: after the store write for the first batch item
fails, the orchestrator does **not** stop merging — the second item is
still saved (the final table holds its row) and the failure surfaces as
a `False` return, not a re-raised exception.  This refutes "re-raised to
the orchestrator, which ... stops merging further items in that batch". -/
theorem C9_counterexample_merging_continues_after_failure :
    (saveAnalysisResult failingStore [] recBad).2 = false ∧
    (saveAnalysisResults failingStore [] [recBad, recGood]).2 = 1 ∧
    (saveAnalysisResults failingStore [] [recBad, recGood]).1 = [recGood] := by
  decide

/-! ### Result formatting (`ResultFormatter.format_analysis_result`,
src/call_analysis.py 620-696): the `AnalysisResult` dataclass is filled
from the parsed object and, on the success path, serialized keeping only
the truthy fields (`{k: v for k, v in asdict(...).items() if v}`,
line 687). -/

/-- The `AnalysisResult` dataclass (src/call_analysis.py 583-614), in
declaration order, with its defaults. -/
structure AnalysisResultM where
  call_id : String
  call_date : String := ""
  analysis_status : String := "completed"
  api_error : String := ""
  primary_issue_category : String := ""
  specific_issue : String := ""
  issue_status : String := ""
  issue_severity : String := ""
  caller_type : String := ""
  experience_level : String := ""
  caller_intent : String := ""
  system_portal : String := ""
  device_information : String := ""
  error_messages : String := ""
  feature_involved : String := ""
  issue_preconditions : String := ""
  action_sequence : String := ""
  failure_point : String := ""
  expected_vs_actual : String := ""
  issue_frequency : String := ""
  attempted_solutions : String := ""
  resolution_steps : String := ""
  knowledge_gap_identified : String := ""
  issue_description_quote : String := ""
  impact_statement_quote : String := ""
  issue_summary : String := ""
  confidence_score : ℚ := 0
  analysis_timestamp : String := ""
  processing_time_ms : ℚ := 0
  note : String := ""
  deriving DecidableEq, Repr

/-- `dataclasses.asdict` of an `AnalysisResult`, in field order. -/
def asdictAnalysis (a : AnalysisResultM) : Record :=
  [("call_id", .s a.call_id),
   ("call_date", .s a.call_date),
   ("analysis_status", .s a.analysis_status),
   ("api_error", .s a.api_error),
   ("primary_issue_category", .s a.primary_issue_category),
   ("specific_issue", .s a.specific_issue),
   ("issue_status", .s a.issue_status),
   ("issue_severity", .s a.issue_severity),
   ("caller_type", .s a.caller_type),
   ("experience_level", .s a.experience_level),
   ("caller_intent", .s a.caller_intent),
   ("system_portal", .s a.system_portal),
   ("device_information", .s a.device_information),
   ("error_messages", .s a.error_messages),
   ("feature_involved", .s a.feature_involved),
   ("issue_preconditions", .s a.issue_preconditions),
   ("action_sequence", .s a.action_sequence),
   ("failure_point", .s a.failure_point),
   ("expected_vs_actual", .s a.expected_vs_actual),
   ("issue_frequency", .s a.issue_frequency),
   ("attempted_solutions", .s a.attempted_solutions),
   ("resolution_steps", .s a.resolution_steps),
   ("knowledge_gap_identified", .s a.knowledge_gap_identified),
   ("issue_description_quote", .s a.issue_description_quote),
   ("impact_statement_quote", .s a.impact_statement_quote),
   ("issue_summary", .s a.issue_summary),
   ("confidence_score", .num a.confidence_score),
   ("analysis_timestamp", .s a.analysis_timestamp),
   ("processing_time_ms", .num a.processing_time_ms),
   ("note", .s a.note)]

/-- The field names of the `AnalysisResult` dataclass, in order. -/
def analysisOutFields : List String :=
  ["call_id", "call_date", "analysis_status", "api_error",
   "primary_issue_category", "specific_issue", "issue_status",
   "issue_severity", "caller_type", "experience_level", "caller_intent",
   "system_portal", "device_information", "error_messages",
   "feature_involved", "issue_preconditions", "action_sequence",
   "failure_point", "expected_vs_actual", "issue_frequency",
   "attempted_solutions", "resolution_steps", "knowledge_gap_identified",
   "issue_description_quote", "impact_statement_quote", "issue_summary",
   "confidence_score", "analysis_timestamp", "processing_time_ms", "note"]

/-- The field updates of the success path (src/call_analysis.py
650-685): populate the dataclass from the parsed sub-objects, compute
the confidence score, stamp the time, and copy `note` and
`processing_time` when present. -/
def populateFields (b : AnalysisResultM) (p : ParsedResult)
    (timestamp : String) : AnalysisResultM :=
  { b with
    primary_issue_category := p.issueClassD.primary_category,
    specific_issue := p.issueClassD.specific_issue,
    issue_status := p.issueClassD.issue_status,
    issue_severity := p.issueClassD.severity,
    caller_type := p.callerD.caller_type,
    experience_level := p.callerD.experience_level,
    caller_intent := p.callerD.intent,
    system_portal := p.techD.system_portal,
    device_information := p.techD.device_information,
    error_messages := p.techD.error_messages,
    feature_involved := p.techD.feature_involved,
    issue_preconditions := p.recD.preconditions,
    action_sequence := p.recD.action_sequence,
    failure_point := p.recD.failure_point,
    expected_vs_actual := p.recD.expected_vs_actual,
    issue_frequency := p.recD.frequency,
    attempted_solutions := p.resD.attempted_solutions,
    resolution_steps := p.resD.resolution_steps,
    knowledge_gap_identified := p.resD.knowledge_gap_identified,
    issue_description_quote := p.quotesD.issue_description,
    impact_statement_quote := p.quotesD.impact_statement,
    issue_summary := p.summaryD,
    confidence_score := calculateConfidenceScore p,
    analysis_timestamp := timestamp,
    note := p.note.getD b.note,
    processing_time_ms := p.processing_time.getD b.processing_time_ms }

/-- `ResultFormatter.format_analysis_result` (src/call_analysis.py
620-696).  The API-error branch keeps the full dictionary when no valid
analysis is present ("failed") and otherwise continues as "partial"; the
`error` branch returns the full failure dictionary; the success path
returns only the truthy fields. -/
def formatAnalysisResult (extractDate : String → String) (timestamp : String)
    (p : ParsedResult) (fileName : String) : Record :=
  let base : AnalysisResultM :=
    { call_id := fileName, call_date := extractDate fileName }
  match p.api_error with
  | some e =>
    if p.issue_classification.isSome || p.issue_summary.isSome then
      (asdictAnalysis (populateFields
        { base with analysis_status := "partial", api_error := e }
        p timestamp)).filter (fun kv => kv.2.truthy)
    else
      asdictAnalysis { base with analysis_status := "failed", api_error := e }
  | none =>
    match p.error with
    | some e =>
      asdictAnalysis { base with analysis_status := "failed", api_error := e }
    | none =>
      (asdictAnalysis (populateFields base p timestamp)).filter
        (fun kv => kv.2.truthy)

theorem asdictAnalysis_keys (a : AnalysisResultM) :
    (asdictAnalysis a).map Prod.fst = analysisOutFields := rfl

/-- C10: on the success path (no `api_error` and no `error` key), the
formatted record contains only the `AnalysisResult` fields whose values
are truthy; every field whose computed value is empty or zero is absent
from the record; and a subsequent upsert for the same `call_id` leaves
the absent columns' previously stored values in place instead of
overwriting them. -/
theorem C10_format_keeps_truthy_fields_and_upsert_preserves_rest
    (extractDate : String → String) (timestamp : String) (p : ParsedResult)
    (fileName : String) (hape : p.api_error = none) (herr : p.error = none)
    (hfile : fileName ≠ "") :
    (∀ kv ∈ formatAnalysisResult extractDate timestamp p fileName,
      kv.2.truthy = true) ∧
    (∀ kv ∈ formatAnalysisResult extractDate timestamp p fileName,
      kv.1 ∈ analysisRecordFields) ∧
    (∀ kv ∈ asdictAnalysis (populateFields
        { call_id := fileName, call_date := extractDate fileName } p timestamp),
      kv.2.truthy = false →
      lookupRec (formatAnalysisResult extractDate timestamp p fileName)
        kv.1 = none) ∧
    (∀ (table : List Record) (R : Record),
      countKey table (.s fileName) ≤ 1 → R ∈ table →
      lookupRec R "call_id" = some (.s fileName) →
      ∀ row ∈ (saveAnalysisResult noStoreFailure table
          (formatAnalysisResult extractDate timestamp p fileName)).1,
        lookupRec row "call_id" = some (.s fileName) →
        ∀ k, lookupRec (formatAnalysisResult extractDate timestamp p fileName)
            k = none →
          lookupRec row k = lookupRec R k) := by
  have hout : formatAnalysisResult extractDate timestamp p fileName =
      (asdictAnalysis (populateFields
        { call_id := fileName, call_date := extractDate fileName }
        p timestamp)).filter (fun kv => kv.2.truthy) := by
    simp only [formatAnalysisResult, hape, herr]
  set A : AnalysisResultM := populateFields
    { call_id := fileName, call_date := extractDate fileName } p timestamp with hA
  have hkeysnd : ((asdictAnalysis A).map Prod.fst).Nodup := by
    rw [asdictAnalysis_keys]
    decide
  have hinj := List.inj_on_of_nodup_map hkeysnd
  have houtsub : ∀ kv ∈ formatAnalysisResult extractDate timestamp p fileName,
      kv ∈ asdictAnalysis A := by
    intro kv hkv
    rw [hout] at hkv
    exact List.mem_of_mem_filter hkv
  refine ⟨?_, ?_, ?_, ?_⟩
  · intro kv hkv
    rw [hout] at hkv
    exact (List.mem_filter.mp hkv).2
  · intro kv hkv
    have hm : kv.1 ∈ analysisOutFields :=
      asdictAnalysis_keys A ▸ List.mem_map_of_mem Prod.fst (houtsub kv hkv)
    exact (by decide : ∀ x ∈ analysisOutFields, x ∈ analysisRecordFields)
      kv.1 hm
  · intro kv hkv hfalse
    rw [hout, lookupRec, List.find?_eq_none.mpr, Option.map_none']
    intro x hx
    have hxa : x ∈ asdictAnalysis A := List.mem_of_mem_filter hx
    have hxt : x.2.truthy = true := (List.mem_filter.mp hx).2
    intro hxk
    have hxeq : x = kv := hinj hxa hkv (by simpa using hxk)
    rw [hxeq, hfalse] at hxt
    exact Bool.false_ne_true hxt
  · have hcidA : A.call_id = fileName := rfl
    have hcid : lookupRec (formatAnalysisResult extractDate timestamp p fileName)
        "call_id" = some (.s fileName) := by
      rw [hout]
      rw [lookupRec_filter_irrelevant _ _ _ ?hq]
      case hq =>
        intro kv hkv hk
        have hhead : ("call_id", Value.s A.call_id) ∈ asdictAnalysis A := by
          rw [asdictAnalysis]; exact List.mem_cons_self _ _
        have : kv = ("call_id", Value.s A.call_id) :=
          hinj hkv hhead (by simpa using hk)
        rw [this]
        simp [Value.truthy, hcidA, hfile]
      rw [show lookupRec (asdictAnalysis A) "call_id" =
          some (Value.s A.call_id) from by
        simp [asdictAnalysis, lookupRec, List.find?], hcidA]
    have hfilterself : (formatAnalysisResult extractDate timestamp p
        fileName).filter (fun kv => kv.1 ∈ analysisColumns) =
        formatAnalysisResult extractDate timestamp p fileName := by
      apply List.filter_eq_self.mpr
      intro kv hkv
      have hm : kv.1 ∈ analysisOutFields :=
        asdictAnalysis_keys A ▸ List.mem_map_of_mem Prod.fst (houtsub kv hkv)
      exact decide_eq_true
        ((by decide : ∀ x ∈ analysisOutFields, x ∈ analysisColumns) kv.1 hm)
    intro table R hwf hR hRv row hrow hrowv k hk
    have hsave : saveAnalysisResult noStoreFailure table
        (formatAnalysisResult extractDate timestamp p fileName) =
        (upsertRow table (.s fileName)
          (formatAnalysisResult extractDate timestamp p fileName), true) := by
      rw [saveAnalysisResult, hcid]
      simp only [Value.truthy, noStoreFailure, hfilterself]
      simp [hfile]
    rw [hsave] at hrow
    exact upsertRow_lookup_none_existing table (.s fileName) _ R k hwf hR hRv
      hcid hk row hrow hrowv

/-- A parsed result with a couple of truthy fields, for the C10 witness. -/
def sampleParsed : ParsedResult :=
  { issue_classification := some { primary_category := "Technical Issue" },
    issue_summary := some "Login fails on the portal." }

/-- A previously stored row for the same call, carrying a column the new
formatted record omits. -/
def prevRow : Record :=
  [("call_id", Value.s "f1.mp3"), ("resolution_steps", Value.s "old steps")]

/-- Witness for C10: formatting a concrete success result produces only
truthy fields, and upserting it over a stored row keeps the stored values
of the omitted columns. -/
theorem C10_format_keeps_truthy_fields_and_upsert_preserves_rest_witness :
    (∀ kv ∈ formatAnalysisResult (fun _ => "2024-01-01")
        "2024-01-01 10:00:00" sampleParsed "f1.mp3", kv.2.truthy = true) ∧
    (∀ row ∈ (saveAnalysisResult noStoreFailure [prevRow]
        (formatAnalysisResult (fun _ => "2024-01-01")
          "2024-01-01 10:00:00" sampleParsed "f1.mp3")).1,
      lookupRec row "call_id" = some (.s "f1.mp3") →
      ∀ k, lookupRec (formatAnalysisResult (fun _ => "2024-01-01")
          "2024-01-01 10:00:00" sampleParsed "f1.mp3") k = none →
        lookupRec row k = lookupRec prevRow k) :=
  have h := C10_format_keeps_truthy_fields_and_upsert_preserves_rest
    (fun _ => "2024-01-01") "2024-01-01 10:00:00" sampleParsed "f1.mp3"
    rfl rfl (by decide)
  ⟨h.1, h.2.2.2 [prevRow] prevRow (by decide) (by decide) (by decide)⟩

end Contesa

